import Mathlib

/-!
Verification of the expression/reference engine of the `sistemas`
RPG-schema editor: the token scanners, the calculated-stat dependency
extractor and cycle detector, the schema validator, the template
resolver and the replacement consistency checker, all translated from
`src/App.tsx`.
-/

namespace Sistemas

/-! ### Data model (types from App.tsx) -/

/-- `Localization` / `LabelLocalization`: a default string plus further
locale entries, as in the TS `{ default: T } & Partial Record` shape. -/
structure Loc where
  default : String
  locs : List (String × String) := []
deriving DecidableEq

/-- JS property access `l[k]` on a localization object. -/
def Loc.jsIndex (l : Loc) (k : String) : Option String :=
  if k = "default" then some l.default else l.locs.lookup k

/-- `StatsEnumOption`: `{ value: number; name; emoji? }`. -/
structure EnumOpt where
  value : Int
  name : Loc
  emoji : Option String := none
deriving DecidableEq

/-- The variant-specific part of the `Stats` tagged union. -/
inductive StatBody where
  | numeric (min max : Option Int)
  | enum (options : List EnumOpt ⊕ Int)
  | boolean
  | stringS (minLength maxLength : Option Int)
  | calculated (formula : String)
deriving DecidableEq

/-- A stat: common `BaseStat` fields plus its variant body. -/
structure Stat where
  id : Nat
  name : Loc
  emoji : Option String := none
  body : StatBody
deriving DecidableEq

/-- Dice condition operator `< > <= >= == !=`. -/
inductive CondOp | ltOp | gtOp | leOp | geOp | eqOp | neOp
deriving DecidableEq

/-- `Dice.condition`: `{ value1, operator, value2 }`. -/
structure DiceCond where
  value1 : String
  op : CondOp
  value2 : String
deriving DecidableEq

/-- `Dice`: `{ expression: string, condition?: ... }`. -/
structure Dice where
  expression : String
  condition : Option DiceCond := none
deriving DecidableEq

/-- `Section`: fields used by the validator and resolver. -/
structure SectionT where
  id : Nat
  name : Loc
  emoji : Option String := none
  quick_edit_btn : Bool := false
  previewType : String
  previewContent : Loc
  view_pages : List Nat := []
deriving DecidableEq

/-! ### Character-level token scanning

The TS code scans with regexes such as `/<stat:(\d+):value>/g`.  We
model a JS global-regex pass as a left-to-right scan over the character
list: at each `<` we try to match the token at that position; on
failure we advance one character, exactly as `RegExp.exec` resumes the
search. -/

/-- Match a literal character sequence at the head of the input,
returning the remainder (the regex-literal part of a token). -/
def dropPre : List Char → List Char → Option (List Char)
  | [], cs => some cs
  | _ :: _, [] => none
  | p :: ps, c :: cs => if c = p then dropPre ps cs else none

theorem dropPre_length {p cs r : List Char} (h : dropPre p cs = some r) :
    r.length ≤ cs.length := by
  induction p generalizing cs with
  | nil => simp [dropPre] at h; simp [h]
  | cons x xs ih =>
    cases cs with
    | nil => simp [dropPre] at h
    | cons c cs =>
      by_cases hc : c = x
      · simp [dropPre, hc] at h
        exact Nat.le_succ_of_le (ih h)
      · simp [dropPre, hc] at h

theorem length_dropWhile_le' (p : Char → Bool) (cs : List Char) :
    (cs.dropWhile p).length ≤ cs.length := by
  induction cs with
  | nil => simp
  | cons c cs ih =>
    by_cases hc : p c
    · simp [List.dropWhile, hc]; exact Nat.le_succ_of_le ih
    · simp [List.dropWhile, hc]

/-- `parseInt` of a run of decimal digits. -/
def digitsToNat (ds : List Char) : Nat :=
  ds.foldl (fun n c => n * 10 + (c.toNat - 48)) 0

/-- Match the tail of a `<stat:(\d+):value>` token (the part after the
`<`), returning the digit run and the rest of the input. -/
def parseSV (cs : List Char) : Option (List Char × List Char) :=
  match dropPre "stat:".data cs with
  | none => none
  | some cs1 =>
    if (cs1.takeWhile Char.isDigit).isEmpty then none
    else
      match dropPre ":value>".data (cs1.dropWhile Char.isDigit) with
      | none => none
      | some rest => some (cs1.takeWhile Char.isDigit, rest)

theorem parseSV_length {cs ds rest : List Char}
    (h : parseSV cs = some (ds, rest)) : rest.length ≤ cs.length := by
  unfold parseSV at h
  split at h
  · simp at h
  next cs1 h1 =>
    split at h
    · simp at h
    · split at h
      · simp at h
      next r2 h2 =>
        simp only [Option.some.injEq, Prod.mk.injEq] at h
        have : r2.length ≤ cs1.length :=
          le_trans (dropPre_length h2) (length_dropWhile_le' _ _)
        exact h.2 ▸ le_trans this (dropPre_length h1)

/-- All ids matched by `/<stat:(\d+):value>/g`, in match order, with
repetitions (the raw occurrence list, before de-duplication). -/
def depScan : List Char → List Nat
  | [] => []
  | c :: cs =>
    if c = '<' then
      match h : parseSV cs with
      | some (ds, rest) => digitsToNat ds :: depScan rest
      | none => depScan cs
    else depScan cs
termination_by cs => cs.length
decreasing_by
  · exact Nat.lt_succ_of_le (parseSV_length h)
  · simp
  · simp

/-- The scanning loop of `findStatDependencies`: collect each matched
id, pushing it only when not already collected. -/
def depLoop (acc : List Nat) : List Char → List Nat
  | [] => acc
  | c :: cs =>
    if c = '<' then
      match h : parseSV cs with
      | some (ds, rest) =>
        depLoop (if digitsToNat ds ∈ acc then acc else acc ++ [digitsToNat ds]) rest
      | none => depLoop acc cs
    else depLoop acc cs
termination_by cs => cs.length
decreasing_by
  · exact Nat.lt_succ_of_le (parseSV_length h)
  · simp
  · simp

/-- `findStatDependencies(formula)` from App.tsx. -/
def findStatDependencies (formula : String) : List Nat :=
  depLoop [] formula.data

/-! ### Cycle detector

`hasCircularDependency(currentStatId, formula, allStats)` runs a
depth-first traversal with an on-path `visited` set (added on entry,
removed on exit, i.e. passed down and discarded on return).  The TS
recursion terminates because a node already on the path is never
re-expanded; we replay it with a fuel parameter and prove below that
`allStats.length + 2` fuel always suffices. -/

/-- `stats.find(s => s.id === depId)`. -/
def statFind (stats : List Stat) (depId : Nat) : Option Stat :=
  stats.find? (fun s => s.id = depId)

mutual

/-- The body of `checkRecursive(statId, currentFormula)`. -/
def checkRec (cid : Nat) (stats : List Stat) :
    Nat → List Nat → Nat → String → Option Bool
  | 0, _, _, _ => none
  | fuel + 1, visited, statId, formula =>
    if statId ∈ visited then some true
    else checkDeps cid stats fuel (statId :: visited) (findStatDependencies formula)
termination_by fuel _ _ _ => (fuel, 0)

/-- The `for (const depId of dependencies)` loop of `checkRecursive`. -/
def checkDeps (cid : Nat) (stats : List Stat) :
    Nat → List Nat → List Nat → Option Bool
  | _, _, [] => some false
  | fuel, visited, depId :: rest =>
    if depId = cid then some true
    else
      match statFind stats depId with
      | some st =>
        match st.body with
        | StatBody.calculated f =>
          match checkRec cid stats fuel visited depId f with
          | none => none
          | some true => some true
          | some false => checkDeps cid stats fuel visited rest
        | _ => checkDeps cid stats fuel visited rest
      | none => checkDeps cid stats fuel visited rest
termination_by fuel _ ds => (fuel, ds.length + 1)

end

/-- `hasCircularDependency(currentStatId, formula, allStats)` from
App.tsx; `allStats.length + 2` fuel is proven sufficient below. -/
def hasCircularDependency (cid : Nat) (formula : String) (stats : List Stat) : Bool :=
  (checkRec cid stats (stats.length + 2) [] cid formula).getD false

/-- A calculated stat used in the examples below. -/
def mkCalc (id : Nat) (f : String) : Stat :=
  { id := id, name := { default := "c" }, body := StatBody.calculated f }

/-! ### Termination of the traversal

Every node the traversal expands is either `cid` or the id of a stat
found in `allStats`, and expansion only happens for nodes not yet on
the path; thus nesting depth is bounded by the number of distinct such
ids not yet visited. -/

/-- The ids the traversal can ever expand. -/
def candIds (cid : Nat) (stats : List Stat) : List Nat :=
  (cid :: stats.map (·.id)).dedup

/-- How many expandable ids are not yet on the path. -/
def freeCnt (cid : Nat) (stats : List Stat) (V : List Nat) : Nat :=
  ((candIds cid stats).filter (fun x => decide (x ∉ V))).length

theorem freeCnt_lt {cid : Nat} {stats : List Stat} {V : List Nat} {s : Nat}
    (hs : s ∈ candIds cid stats) (hv : s ∉ V) :
    freeCnt cid stats (s :: V) < freeCnt cid stats V := by
  unfold freeCnt
  have hsplit : (candIds cid stats).filter (fun x => decide (x ∉ s :: V)) =
      ((candIds cid stats).filter (fun x => decide (x ∉ V))).filter
        (fun x => decide (x ≠ s)) := by
    rw [List.filter_filter]
    apply List.filter_congr
    intro x _
    by_cases h1 : x = s <;> by_cases h2 : x ∈ V <;> simp [h1, h2]
  rw [hsplit]
  apply List.length_filter_lt_length_iff_exists.mpr
  exact ⟨s, List.mem_filter.mpr ⟨hs, by simp [hv]⟩, by simp⟩

theorem statFind_mem_cand {cid : Nat} {stats : List Stat} {d : Nat} {st : Stat}
    (h : statFind stats d = some st) : d ∈ candIds cid stats := by
  unfold statFind at h
  have hm : st ∈ stats := List.mem_of_find?_eq_some h
  have hp := List.find?_some h
  have hid : st.id = d := by simpa using hp
  subst hid
  simp only [candIds, List.mem_dedup, List.mem_cons]
  exact Or.inr (List.mem_map_of_mem _ hm)

/-- Joint totality of `checkRec`/`checkDeps` at sufficient fuel. -/
theorem checks_total (cid : Nat) (stats : List Stat) : ∀ fuel : Nat,
    (∀ V s f, s ∈ candIds cid stats → freeCnt cid stats V < fuel →
      ∃ b, checkRec cid stats fuel V s f = some b) ∧
    (∀ V ds, freeCnt cid stats V < fuel →
      ∃ b, checkDeps cid stats fuel V ds = some b) := by
  intro fuel
  induction fuel using Nat.strong_induction_on with
  | _ fuel ih =>
    have h1 : ∀ V s f, s ∈ candIds cid stats → freeCnt cid stats V < fuel →
        ∃ b, checkRec cid stats fuel V s f = some b := by
      intro V s f hs hcnt
      match fuel, hcnt with
      | fuel + 1, hcnt =>
        by_cases hv : s ∈ V
        · exact ⟨true, by rw [checkRec]; simp [hv]⟩
        · have hlt : freeCnt cid stats (s :: V) < fuel :=
            Nat.lt_of_lt_of_le (freeCnt_lt hs hv) (Nat.le_of_lt_succ hcnt)
          obtain ⟨b, hb⟩ :=
            (ih fuel (Nat.lt_succ_self _)).2 (s :: V) (findStatDependencies f) hlt
          exact ⟨b, by rw [checkRec]; simp [hv, hb]⟩
    refine ⟨h1, ?_⟩
    intro V ds hcnt
    induction ds with
    | nil => exact ⟨false, by rw [checkDeps]⟩
    | cons d rest ihds =>
      by_cases hd : d = cid
      · exact ⟨true, by rw [checkDeps]; simp [hd]⟩
      · cases hfind : statFind stats d with
        | none =>
          obtain ⟨b, hb⟩ := ihds
          exact ⟨b, by rw [checkDeps]; simp [hd, hfind, hb]⟩
        | some st =>
          cases hbody : st.body with
          | calculated f =>
            obtain ⟨b, hb⟩ := h1 V d f (statFind_mem_cand hfind) hcnt
            cases b with
            | true => exact ⟨true, by rw [checkDeps]; simp [hd, hfind, hbody, hb]⟩
            | false =>
              obtain ⟨b', hb'⟩ := ihds
              exact ⟨b', by rw [checkDeps]; simp [hd, hfind, hbody, hb, hb']⟩
          | numeric mn mx =>
            obtain ⟨b, hb⟩ := ihds
            exact ⟨b, by rw [checkDeps]; simp [hd, hfind, hbody, hb]⟩
          | enum o =>
            obtain ⟨b, hb⟩ := ihds
            exact ⟨b, by rw [checkDeps]; simp [hd, hfind, hbody, hb]⟩
          | boolean =>
            obtain ⟨b, hb⟩ := ihds
            exact ⟨b, by rw [checkDeps]; simp [hd, hfind, hbody, hb]⟩
          | stringS mn mx =>
            obtain ⟨b, hb⟩ := ihds
            exact ⟨b, by rw [checkDeps]; simp [hd, hfind, hbody, hb]⟩

theorem freeCnt_nil_lt (cid : Nat) (stats : List Stat) :
    freeCnt cid stats [] < stats.length + 2 := by
  unfold freeCnt
  have h1 : ((candIds cid stats).filter (fun x => decide (x ∉ ([] : List Nat)))).length ≤
      (candIds cid stats).length := List.length_filter_le _ _
  have h2 : (candIds cid stats).length ≤ stats.length + 1 := by
    have := List.Sublist.length_le (List.dedup_sublist (cid :: stats.map (·.id)))
    simpa [candIds] using this
  omega

/-! ### The dependency graph walked by the detector

Node `cid`'s outgoing edges come from the proposed formula; any other
node's edges come from its stored formula when the first stat found
with that id is calculated; all other nodes are sinks. -/

/-- Adjacency of the graph explored by `hasCircularDependency`. -/
def adjOf (cid : Nat) (formula : String) (stats : List Stat) (v : Nat) : List Nat :=
  if v = cid then findStatDependencies formula
  else
    match statFind stats v with
    | some st =>
      match st.body with
      | StatBody.calculated f => findStatDependencies f
      | _ => []
    | none => []

/-- Edge relation of that graph. -/
def Edge (cid : Nat) (formula : String) (stats : List Stat) (a b : Nat) : Prop :=
  b ∈ adjOf cid formula stats a

/-- The first stat found with id `d` is calculated. -/
def IsCalcNode (stats : List Stat) (d : Nat) : Prop :=
  ∃ st f, statFind stats d = some st ∧ st.body = StatBody.calculated f

theorem adjOf_ne_cid {cid : Nat} {formula f : String} {stats : List Stat} {d : Nat}
    {st : Stat} (hne : d ≠ cid) (hfind : statFind stats d = some st)
    (hbody : st.body = StatBody.calculated f) :
    adjOf cid formula stats d = findStatDependencies f := by
  simp [adjOf, hne, hfind, hbody]

theorem adjOf_node_class {cid : Nat} {formula : String} {stats : List Stat} {x : Nat}
    (h : adjOf cid formula stats x ≠ []) : x = cid ∨ IsCalcNode stats x := by
  by_cases hx : x = cid
  · exact Or.inl hx
  · right
    unfold adjOf at h
    rw [if_neg hx] at h
    cases hfind : statFind stats x with
    | none => simp only [hfind] at h; simp at h
    | some st =>
      cases hbody : st.body with
      | calculated f => exact ⟨st, f, hfind, hbody⟩
      | numeric mn mx => simp only [hfind, hbody] at h; simp at h
      | enum o => simp only [hfind, hbody] at h; simp at h
      | boolean => simp only [hfind, hbody] at h; simp at h
      | stringS mn mx => simp only [hfind, hbody] at h; simp at h

/-- `Bad V s` holds exactly when the call `checkRecursive(s, ...)` with
on-path set `V` returns `true` (proven below): either `s` is already on
the path, or some dependency is `cid`, or recursing into a calculated
dependency detects a cycle. -/
inductive Bad (cid : Nat) (formula : String) (stats : List Stat) : List Nat → Nat → Prop where
  | mem : ∀ V s, s ∈ V → Bad cid formula stats V s
  | direct : ∀ V s, s ∉ V → cid ∈ adjOf cid formula stats s → Bad cid formula stats V s
  | step : ∀ V s d, s ∉ V → d ∈ adjOf cid formula stats s → d ≠ cid →
      IsCalcNode stats d → Bad cid formula stats (s :: V) d → Bad cid formula stats V s

theorem exists_dep_iff {l : List Nat} {cid : Nat} {X : Nat → Prop} :
    (∃ d ∈ l, d = cid ∨ X d) ↔ (cid ∈ l ∨ ∃ d ∈ l, X d) := by
  constructor
  · rintro ⟨d, hd, rfl | hx⟩
    · exact Or.inl hd
    · exact Or.inr ⟨d, hd, hx⟩
  · rintro (hc | ⟨d, hd, hx⟩)
    · exact ⟨cid, hc, Or.inl rfl⟩
    · exact ⟨d, hd, Or.inr hx⟩

theorem bad_iff {cid : Nat} {formula : String} {stats : List Stat} {V : List Nat} {s : Nat} :
    Bad cid formula stats V s ↔
      s ∈ V ∨ cid ∈ adjOf cid formula stats s ∨
        ∃ d ∈ adjOf cid formula stats s, d ≠ cid ∧ IsCalcNode stats d ∧
          Bad cid formula stats (s :: V) d := by
  constructor
  · intro h
    cases h with
    | mem V s h => exact Or.inl h
    | direct V s hv h => exact Or.inr (Or.inl h)
    | step V s d hv hd hne hc hb => exact Or.inr (Or.inr ⟨d, hd, hne, hc, hb⟩)
  · intro h
    by_cases hv : s ∈ V
    · exact Bad.mem V s hv
    · rcases h with h | h | ⟨d, hd, hne, hc, hb⟩
      · exact absurd h hv
      · exact Bad.direct V s hv h
      · exact Bad.step V s d hv hd hne hc hb

theorem exists_cons_skip {rest : List Nat} {d cid : Nat} {stats : List Stat}
    {P : Nat → Prop}
    (hskip : ¬ (d = cid ∨ (d ≠ cid ∧ IsCalcNode stats d ∧ P d))) :
    (∃ d' ∈ d :: rest, d' = cid ∨ (d' ≠ cid ∧ IsCalcNode stats d' ∧ P d')) ↔
      ∃ d' ∈ rest, d' = cid ∨ (d' ≠ cid ∧ IsCalcNode stats d' ∧ P d') := by
  constructor
  · rintro ⟨d', hd', hx⟩
    rcases List.mem_cons.mp hd' with rfl | hmem
    · exact absurd hx hskip
    · exact ⟨d', hmem, hx⟩
  · rintro ⟨d', hd', hx⟩
    exact ⟨d', List.mem_cons_of_mem _ hd', hx⟩

/-- Joint correctness of `checkRec`/`checkDeps` against `Bad`. -/
theorem checks_correct (cid : Nat) (formula : String) (stats : List Stat) : ∀ fuel : Nat,
    (∀ V s f b, findStatDependencies f = adjOf cid formula stats s →
      checkRec cid stats fuel V s f = some b →
      (b = true ↔ Bad cid formula stats V s)) ∧
    (∀ V ds b, checkDeps cid stats fuel V ds = some b →
      (b = true ↔ ∃ d ∈ ds, d = cid ∨
        (d ≠ cid ∧ IsCalcNode stats d ∧ Bad cid formula stats V d))) := by
  intro fuel
  induction fuel using Nat.strong_induction_on with
  | _ fuel ih =>
    have h1 : ∀ V s f b, findStatDependencies f = adjOf cid formula stats s →
        checkRec cid stats fuel V s f = some b →
        (b = true ↔ Bad cid formula stats V s) := by
      intro V s f b hadj heq
      cases fuel with
      | zero => rw [checkRec] at heq; cases heq
      | succ fuel =>
        rw [checkRec] at heq
        by_cases hv : s ∈ V
        · rw [if_pos hv] at heq
          cases heq
          simp only [true_iff]
          exact Bad.mem V s hv
        · rw [if_neg hv] at heq
          have hspec := ((ih fuel (Nat.lt_succ_self _)).2 (s :: V)
            (findStatDependencies f) b) heq
          rw [hadj] at hspec
          rw [hspec, bad_iff (s := s) (V := V), exists_dep_iff]
          simp [hv]
    refine ⟨h1, ?_⟩
    intro V ds b heq
    induction ds generalizing b with
    | nil =>
      rw [checkDeps] at heq
      cases heq
      simp
    | cons d rest ihds =>
      rw [checkDeps] at heq
      by_cases hd : d = cid
      · rw [if_pos hd] at heq
        cases heq
        simp only [true_iff]
        exact ⟨d, List.mem_cons_self d rest, Or.inl hd⟩
      · rw [if_neg hd] at heq
        cases hfind : statFind stats d with
        | none =>
          simp only [hfind] at heq
          rw [ihds _ heq, ← exists_cons_skip (d := d)]
          rintro (rfl | ⟨-, ⟨st', f', hf', -⟩, -⟩)
          · exact hd rfl
          · rw [hfind] at hf'; cases hf'
        | some st =>
          cases hbody : st.body with
          | calculated f =>
            simp only [hfind, hbody] at heq
            have hadj : findStatDependencies f = adjOf cid formula stats d :=
              (adjOf_ne_cid hd hfind hbody).symm
            cases hrec : checkRec cid stats fuel V d f with
            | none => simp only [hrec] at heq; cases heq
            | some brec =>
              simp only [hrec] at heq
              have hbd := h1 V d f brec hadj hrec
              cases brec with
              | true =>
                cases heq
                simp only [true_iff]
                exact ⟨d, List.mem_cons_self d rest,
                  Or.inr ⟨hd, ⟨st, f, hfind, hbody⟩, hbd.mp rfl⟩⟩
              | false =>
                have hnbad : ¬ Bad cid formula stats V d := by
                  intro hb
                  exact absurd (hbd.mpr hb) (by simp)
                rw [ihds _ heq, ← exists_cons_skip (d := d)]
                rintro (rfl | ⟨-, -, hb⟩)
                · exact hd rfl
                · exact hnbad hb
          | numeric mn mx =>
            simp only [hfind, hbody] at heq
            rw [ihds _ heq, ← exists_cons_skip (d := d)]
            rintro (rfl | ⟨-, ⟨st', f', hf', hb'⟩, -⟩)
            · exact hd rfl
            · rw [hfind] at hf'; cases hf'; rw [hbody] at hb'; cases hb'
          | enum o =>
            simp only [hfind, hbody] at heq
            rw [ihds _ heq, ← exists_cons_skip (d := d)]
            rintro (rfl | ⟨-, ⟨st', f', hf', hb'⟩, -⟩)
            · exact hd rfl
            · rw [hfind] at hf'; cases hf'; rw [hbody] at hb'; cases hb'
          | boolean =>
            simp only [hfind, hbody] at heq
            rw [ihds _ heq, ← exists_cons_skip (d := d)]
            rintro (rfl | ⟨-, ⟨st', f', hf', hb'⟩, -⟩)
            · exact hd rfl
            · rw [hfind] at hf'; cases hf'; rw [hbody] at hb'; cases hb'
          | stringS mn mx =>
            simp only [hfind, hbody] at heq
            rw [ihds _ heq, ← exists_cons_skip (d := d)]
            rintro (rfl | ⟨-, ⟨st', f', hf', hb'⟩, -⟩)
            · exact hd rfl
            · rw [hfind] at hf'; cases hf'; rw [hbody] at hb'; cases hb'

/-- `hasCircularDependency` decides `Bad [] cid`. -/
theorem hasCirc_iff_bad (cid : Nat) (formula : String) (stats : List Stat) :
    hasCircularDependency cid formula stats = true ↔
      Bad cid formula stats [] cid := by
  obtain ⟨b, hb⟩ := (checks_total cid stats (stats.length + 2)).1 [] cid formula
    (by simp [candIds]) (freeCnt_nil_lt cid stats)
  have hadj : findStatDependencies formula = adjOf cid formula stats cid := by
    simp [adjOf]
  have hspec := (checks_correct cid formula stats (stats.length + 2)).1
    [] cid formula b hadj hb
  rw [hasCircularDependency, hb]
  simpa using hspec

/-! ### From `Bad` to reachable cycles and back -/

/-- The on-path list seen as a chain of edges out of `cid` (most recent
node first). -/
inductive Chain (cid : Nat) (formula : String) (stats : List Stat) : List Nat → Nat → Prop where
  | nil : Chain cid formula stats [] cid
  | cons : ∀ V p s, Chain cid formula stats V p → s ∈ adjOf cid formula stats p →
      Chain cid formula stats (p :: V) s

theorem chain_rtg {cid : Nat} {formula : String} {stats : List Stat} {V : List Nat} {s : Nat}
    (h : Chain cid formula stats V s) :
    Relation.ReflTransGen (Edge cid formula stats) cid s := by
  induction h with
  | nil => exact Relation.ReflTransGen.refl
  | cons V p s hch hedge ih => exact Relation.ReflTransGen.tail ih hedge

theorem chain_mem {cid : Nat} {formula : String} {stats : List Stat} {V : List Nat}
    {s x : Nat} (h : Chain cid formula stats V s) (hx : x ∈ V) :
    Relation.ReflTransGen (Edge cid formula stats) cid x ∧
      Relation.TransGen (Edge cid formula stats) x s := by
  induction h with
  | nil => cases hx
  | cons V p s hch hedge ih =>
    rcases List.mem_cons.mp hx with rfl | hmem
    · exact ⟨chain_rtg hch, Relation.TransGen.single hedge⟩
    · obtain ⟨hr, ht⟩ := ih hmem
      exact ⟨hr, Relation.TransGen.tail ht hedge⟩

theorem bad_chain_cycle {cid : Nat} {formula : String} {stats : List Stat} :
    ∀ V s, Bad cid formula stats V s → Chain cid formula stats V s →
      ∃ v, Relation.ReflTransGen (Edge cid formula stats) cid v ∧
        Relation.TransGen (Edge cid formula stats) v v := by
  intro V s hbad
  induction hbad with
  | mem V s hsV =>
    intro hch
    obtain ⟨hr, ht⟩ := chain_mem hch hsV
    exact ⟨s, hr, ht⟩
  | direct V s hsV hcid =>
    intro hch
    exact ⟨cid, Relation.ReflTransGen.refl,
      Relation.TransGen.tail' (chain_rtg hch) hcid⟩
  | step V s d hsV hd hne hc hb ih =>
    intro hch
    exact ih (Chain.cons V s d hch hd)

/-- A walk through the graph, as the list of nodes visited after the
start node. -/
def WalkF (cid : Nat) (formula : String) (stats : List Stat) : Nat → List Nat → Prop
  | _, [] => True
  | s, w :: ws => w ∈ adjOf cid formula stats s ∧ WalkF cid formula stats w ws

/-- The final node of a walk. -/
def lastD (s : Nat) (ws : List Nat) : Nat := ws.getLastD s

theorem lastD_cons (s w : Nat) (ws : List Nat) : lastD s (w :: ws) = lastD w ws :=
  List.getLastD_cons s w ws

theorem lastD_concat (s w : Nat) (ws : List Nat) : lastD s (ws ++ [w]) = w := by
  simp [lastD, List.getLastD_concat]

theorem lastD_append (s : Nat) (ws₁ ws₂ : List Nat) :
    lastD s (ws₁ ++ ws₂) = lastD (lastD s ws₁) ws₂ := by
  induction ws₁ generalizing s with
  | nil => simp [lastD]
  | cons w ws ih => simp only [List.cons_append, lastD_cons, ih]

theorem lastD_mem (s : Nat) (ws : List Nat) : lastD s ws ∈ s :: ws := by
  induction ws generalizing s with
  | nil => simp [lastD]
  | cons w ws ih =>
    rw [lastD_cons]
    rcases List.mem_cons.mp (ih w) with h | h
    · simp [h]
    · exact List.mem_cons_of_mem _ (List.mem_cons_of_mem _ h)

theorem walkF_append {cid : Nat} {formula : String} {stats : List Stat}
    {s : Nat} {ws₁ ws₂ : List Nat} (h₁ : WalkF cid formula stats s ws₁)
    (h₂ : WalkF cid formula stats (lastD s ws₁) ws₂) :
    WalkF cid formula stats s (ws₁ ++ ws₂) := by
  induction ws₁ generalizing s with
  | nil => exact h₂
  | cons w ws ih =>
    obtain ⟨hw, hrest⟩ := h₁
    rw [lastD_cons] at h₂
    exact ⟨hw, ih hrest h₂⟩

theorem walkF_concat_split {cid : Nat} {formula : String} {stats : List Stat}
    {s w : Nat} {ws : List Nat} (h : WalkF cid formula stats s (ws ++ [w])) :
    WalkF cid formula stats s ws ∧ w ∈ adjOf cid formula stats (lastD s ws) := by
  induction ws generalizing s with
  | nil => exact ⟨trivial, h.1⟩
  | cons x xs ih =>
    obtain ⟨hx, hrest⟩ := h
    obtain ⟨hxs, hlast⟩ := ih hrest
    exact ⟨⟨hx, hxs⟩, by rwa [lastD_cons]⟩

theorem rtg_walk {cid : Nat} {formula : String} {stats : List Stat} {s v : Nat}
    (h : Relation.ReflTransGen (Edge cid formula stats) s v) :
    ∃ ws, WalkF cid formula stats s ws ∧ lastD s ws = v := by
  induction h with
  | refl => exact ⟨[], trivial, rfl⟩
  | tail hab hbc ih =>
    obtain ⟨ws, hw, hl⟩ := ih
    refine ⟨ws ++ [_], walkF_append hw ⟨hl ▸ hbc, trivial⟩, lastD_concat _ _ _⟩

theorem tg_walk {cid : Nat} {formula : String} {stats : List Stat} {s v : Nat}
    (h : Relation.TransGen (Edge cid formula stats) s v) :
    ∃ ws, ws ≠ [] ∧ WalkF cid formula stats s ws ∧ lastD s ws = v := by
  obtain ⟨u, hsu, huv⟩ := Relation.TransGen.head'_iff.mp h
  obtain ⟨ws, hw, hl⟩ := rtg_walk huv
  exact ⟨u :: ws, by simp, ⟨hsu, hw⟩, by rw [lastD_cons, hl]⟩

/-- Completeness of the detector: a walk whose final node has an edge
back into the visited set, the start, the walk itself, or `cid`, makes
the traversal report a cycle. -/
theorem walk_collide_bad {cid : Nat} {formula : String} {stats : List Stat} :
    ∀ (ws : List Nat) (V : List Nat) (s w : Nat),
      (∀ x ∈ V, x = cid ∨ IsCalcNode stats x) →
      (s = cid ∨ IsCalcNode stats s) →
      WalkF cid formula stats s ws →
      w ∈ adjOf cid formula stats (lastD s ws) →
      (w = cid ∨ w ∈ V ∨ w ∈ s :: ws) →
      Bad cid formula stats V s := by
  intro ws
  induction ws with
  | nil =>
    intro V s w hV hs hwalk hw hcases
    by_cases hsV : s ∈ V
    · exact Bad.mem V s hsV
    · simp only [lastD, List.getLastD_nil] at hw
      rcases hcases with rfl | hwV | hws
      · exact Bad.direct V s hsV hw
      · rcases hV w hwV with rfl | hcalc
        · exact Bad.direct V s hsV hw
        · by_cases hwc : w = cid
          · exact Bad.direct V s hsV (hwc ▸ hw)
          · exact Bad.step V s w hsV hw hwc hcalc
              (Bad.mem _ w (List.mem_cons_of_mem _ hwV))
      · have hws : w = s := by simpa using hws
        subst hws
        rcases hs with rfl | hcalc
        · exact Bad.direct V w hsV hw
        · by_cases hwc : w = cid
          · exact Bad.direct V w hsV (hwc ▸ hw)
          · exact Bad.step V w w hsV hw hwc hcalc
              (Bad.mem _ w (List.mem_cons_self _ _))
  | cons s' rest ih =>
    intro V s w hV hs hwalk hw hcases
    by_cases hsV : s ∈ V
    · exact Bad.mem V s hsV
    · obtain ⟨hss', hwalk'⟩ := hwalk
      by_cases hs'c : s' = cid
      · exact Bad.direct V s hsV (hs'c ▸ hss')
      · have hs'adj : adjOf cid formula stats s' ≠ [] := by
          cases rest with
          | nil =>
            rw [lastD_cons] at hw
            simp only [lastD, List.getLastD_nil] at hw
            exact List.ne_nil_of_mem hw
          | cons r rs => exact List.ne_nil_of_mem hwalk'.1
        rcases adjOf_node_class hs'adj with h | hs'calc
        · exact absurd h hs'c
        · refine Bad.step V s s' hsV hss' hs'c hs'calc ?_
          apply ih (s :: V) s' w
          · intro x hx
            rcases List.mem_cons.mp hx with rfl | hxV
            · exact hs
            · exact hV x hxV
          · exact Or.inr hs'calc
          · exact hwalk'
          · rwa [lastD_cons] at hw
          · rcases hcases with rfl | hwV | hws
            · exact Or.inl rfl
            · exact Or.inr (Or.inl (List.mem_cons_of_mem _ hwV))
            · rcases List.mem_cons.mp hws with rfl | hws'
              · exact Or.inr (Or.inl (List.mem_cons_self _ _))
              · exact Or.inr (Or.inr hws')

/-- A cycle reachable from `cid` makes the traversal report it. -/
theorem cycle_bad {cid : Nat} {formula : String} {stats : List Stat}
    (h : ∃ v, Relation.ReflTransGen (Edge cid formula stats) cid v ∧
      Relation.TransGen (Edge cid formula stats) v v) :
    Bad cid formula stats [] cid := by
  obtain ⟨v, hr, ht⟩ := h
  obtain ⟨ws₁, hw₁, hl₁⟩ := rtg_walk hr
  obtain ⟨ws₂, hne, hw₂, hl₂⟩ := tg_walk ht
  rcases List.eq_nil_or_concat ws₂ with rfl | ⟨ys, y, rfl⟩
  · exact absurd rfl hne
  · rw [List.concat_eq_append] at hne hw₂ hl₂
    have hy : y = v := by rwa [lastD_concat] at hl₂
    rw [hy] at hw₂
    obtain ⟨hwys, hvadj⟩ := walkF_concat_split hw₂
    have hwalk : WalkF cid formula stats cid (ws₁ ++ ys) :=
      walkF_append hw₁ (hl₁ ▸ hwys)
    have hw : v ∈ adjOf cid formula stats (lastD cid (ws₁ ++ ys)) := by
      rw [lastD_append, hl₁]
      exact hvadj
    apply walk_collide_bad (ws₁ ++ ys) [] cid v (by simp) (Or.inl rfl) hwalk hw
    right; right
    have : v ∈ cid :: ws₁ := hl₁ ▸ lastD_mem cid ws₁
    rcases List.mem_cons.mp this with rfl | hmem
    · exact List.mem_cons_self _ _
    · exact List.mem_cons_of_mem _ (List.mem_append_left _ hmem)

/-! ### Claim C1 and C9 theorems -/

/-- C9: `hasCircularDependency` terminates on every input: for every
target id, formula, and finite stat list — including arbitrarily cyclic
reference graphs — the traversal produces a boolean result at the fuel
bound `allStats.length + 2`, because a node already on the path is
never re-expanded. -/
theorem c9_traversal_terminates (cid : Nat) (formula : String) (stats : List Stat) :
    ∃ b : Bool, checkRec cid stats (stats.length + 2) [] cid formula = some b :=
  (checks_total cid stats (stats.length + 2)).1 [] cid formula
    (by simp [candIds]) (freeCnt_nil_lt cid stats)

/-- C1 (amended): `hasCircularDependency(id, formula, stats)` returns
`true` iff the directed graph of calculated-stat formula references, in
which node `id`'s edges are those of the given (hypothetical) formula,
contains a cycle *reachable from* `id` — a path from `id` back to `id`,
or a cycle among the calculated stats reachable from `id` — not only a
path leading back to `id` itself. -/
theorem c1_hasCirc_iff_reachable_cycle (cid : Nat) (formula : String) (stats : List Stat) :
    hasCircularDependency cid formula stats = true ↔
      ∃ v, Relation.ReflTransGen (Edge cid formula stats) cid v ∧
        Relation.TransGen (Edge cid formula stats) v v := by
  rw [hasCirc_iff_bad]
  constructor
  · intro hbad
    exact bad_chain_cycle [] cid hbad Chain.nil
  · exact cycle_bad

/-- The schema refuting claim C1 as stated: stat 2 is calculated and
refers to itself; stat 1's proposed formula refers to stat 2. -/
def cexStats : List Stat := [mkCalc 2 "<stat:2:value>"]

theorem cex_deps : findStatDependencies "<stat:2:value>" = [2] := by
  simp [findStatDependencies, depLoop, parseSV, dropPre, digitsToNat]

/-- C1 counterexample: on this input the detector answers `true`, yet
the reference graph extended with the hypothetical edge `1 → 2` has no
path leading back to id `1` (the only cycle is `2 → 2`). -/
theorem c1_counterexample :
    hasCircularDependency 1 "<stat:2:value>" cexStats = true ∧
      ¬ Relation.TransGen (Edge 1 "<stat:2:value>" cexStats) 1 1 := by
  constructor
  · simp [hasCircularDependency, checkRec, checkDeps, findStatDependencies, depLoop,
      parseSV, dropPre, digitsToNat, statFind, cexStats, mkCalc]
  · intro h
    obtain ⟨c, hrc, hc1⟩ := Relation.TransGen.tail'_iff.mp h
    unfold Edge adjOf at hc1
    by_cases h1 : c = 1
    · rw [if_pos h1, cex_deps] at hc1
      simp at hc1
    · rw [if_neg h1] at hc1
      by_cases h2 : c = 2
      · subst h2
        have hfind : statFind cexStats 2 = some (mkCalc 2 "<stat:2:value>") := by
          simp [statFind, cexStats, mkCalc]
        simp only [hfind, mkCalc, cex_deps] at hc1
        simp at hc1
      · have hfind : statFind cexStats c = none := by
          simp only [statFind, cexStats, mkCalc, List.find?]
          simp [Ne.symm h2]
        simp only [hfind] at hc1
        simp at hc1

/-! ### Template resolver (`SmartPreview` in App.tsx)

`resolveVariableValue(type, id, property)` resolves one
`<stat|section : id : property>` token against the schema; the
surrounding `value.replace(/<(stat|section):(\d+):(name|value|emoji)>/g, ...)`
pass is modelled by `resolveScan` below.  All functions are total: the
JS code never throws here (every branch returns a string). -/

/-- JS `a || b` for a possibly-absent string `a` (empty string is falsy). -/
def jsOrS (v : Option String) (fb : String) : String :=
  match v with
  | some s => if s = "" then fb else s
  | none => fb

/-- JS `a || b` for a possibly-absent number `a` (`0` is falsy). -/
def jsOrI (v : Option Int) (fb : Int) : Int :=
  match v with
  | some m => if m = 0 then fb else m
  | none => fb

/-- `x?.[locale] || x?.default || fb`. -/
def locName (n : Loc) (locale : String) (fb : String) : String :=
  jsOrS (n.jsIndex locale) (jsOrS (some n.default) fb)

/-- `sections.find(s => s.id === id)`. -/
def sectionFind (sections : List SectionT) (id : Nat) : Option SectionT :=
  sections.find? (fun s => s.id = id)

/-- The `case 'value'` switch of `resolveVariableValue` for a found stat. -/
def statValueSample (stats : List Stat) (st : Stat) (locale : String) : String :=
  match st.body with
  | StatBody.numeric mn _ => toString (jsOrI mn 1)
  | StatBody.stringS _ _ => "string"
  | StatBody.boolean => "false"
  | StatBody.enum options =>
    match options with
    | Sum.inl (o :: _) => locName o.name locale "Option 1"
    | Sum.inl [] => "enum"
    | Sum.inr r =>
      if r > 0 then
        match stats.find? (fun s => (s.id : Int) = r) with
        | some rs =>
          match rs.body with
          | StatBody.enum (Sum.inl (o :: _)) => locName o.name locale "Option 1"
          | _ => "[ref: " ++ toString r ++ "]"
        | none => "[ref: " ++ toString r ++ "]"
      else "enum"
  | StatBody.calculated _ => "[calculado]"

/-- `parseInt(id)` for the digit-run capture of a token regex. -/
def parseIntS (id : String) : Nat := digitsToNat id.data

theorem parseIntS_mk (ds : List Char) : parseIntS (String.mk ds) = digitsToNat ds := rfl

/-- `resolveVariableValue(type, id, property)` from `SmartPreview`. -/
def resolveVariableValue (stats : List Stat) (sections : List SectionT)
    (locale : String) (type id property : String) : String :=
  if type = "stat" then
    match statFind stats (parseIntS id) with
    | none => "[Stat " ++ id ++ " não encontrado]"
    | some stat =>
      if property = "name" then locName stat.name locale ("Stat " ++ id)
      else if property = "emoji" then stat.emoji.getD ""
      else if property = "value" then statValueSample stats stat locale
      else "[propriedade " ++ property ++ " desconhecida]"
  else if type = "section" then
    match sectionFind sections (parseIntS id) with
    | none => "[Seção " ++ id ++ " não encontrada]"
    | some sec =>
      if property = "name" then locName sec.name locale ("Seção " ++ id)
      else if property = "emoji" then sec.emoji.getD ""
      else "[propriedade " ++ property ++ " desconhecida]"
  else "[tipo " ++ type ++ " desconhecido]"

/-- Match the tail (after `<`) of a
`<(stat|section):(\d+):(name|value|emoji)>` token: returns the matched
kind capture, digit run, property capture and the remaining input. -/
def parseRef (cs : List Char) : Option (String × List Char × String × List Char) :=
  match
    (match dropPre "stat:".data cs with
     | some r => some ("stat", r)
     | none =>
       match dropPre "section:".data cs with
       | some r => some ("section", r)
       | none => none : Option (String × List Char)) with
  | none => none
  | some (kind, cs1) =>
    if (cs1.takeWhile Char.isDigit).isEmpty then none
    else
      match
        (match dropPre ":name>".data (cs1.dropWhile Char.isDigit) with
         | some rest => some ("name", rest)
         | none =>
           match dropPre ":value>".data (cs1.dropWhile Char.isDigit) with
           | some rest => some ("value", rest)
           | none =>
             match dropPre ":emoji>".data (cs1.dropWhile Char.isDigit) with
             | some rest => some ("emoji", rest)
             | none => none : Option (String × List Char)) with
      | none => none
      | some (prop, rest) => some (kind, cs1.takeWhile Char.isDigit, prop, rest)

theorem parseRef_length {cs : List Char} {kind prop : String} {ds rest : List Char}
    (h : parseRef cs = some (kind, ds, prop, rest)) : rest.length ≤ cs.length := by
  unfold parseRef at h
  split at h
  · simp at h
  next kind' cs1 hkind =>
    split at h
    · simp at h
    · split at h
      · simp at h
      next prop' rest' hprop =>
        simp only [Option.some.injEq, Prod.mk.injEq] at h
        have hcs1 : cs1.length ≤ cs.length := by
          rcases hkind' : dropPre "stat:".data cs with _ | r
          · rw [hkind'] at hkind
            rcases hsec : dropPre "section:".data cs with _ | r2
            · rw [hsec] at hkind; cases hkind
            · rw [hsec] at hkind
              simp only [Option.some.injEq, Prod.mk.injEq] at hkind
              exact hkind.2 ▸ dropPre_length hsec
          · rw [hkind'] at hkind
            simp only [Option.some.injEq, Prod.mk.injEq] at hkind
            exact hkind.2 ▸ dropPre_length hkind'
        have hrest' : rest'.length ≤ (cs1.dropWhile Char.isDigit).length := by
          rcases hn : dropPre ":name>".data (cs1.dropWhile Char.isDigit) with _ | r
          · rw [hn] at hprop
            rcases hv : dropPre ":value>".data (cs1.dropWhile Char.isDigit) with _ | r2
            · rw [hv] at hprop
              rcases he : dropPre ":emoji>".data (cs1.dropWhile Char.isDigit) with _ | r3
              · rw [he] at hprop; cases hprop
              · rw [he] at hprop
                simp only [Option.some.injEq, Prod.mk.injEq] at hprop
                exact hprop.2 ▸ dropPre_length he
            · rw [hv] at hprop
              simp only [Option.some.injEq, Prod.mk.injEq] at hprop
              exact hprop.2 ▸ dropPre_length hv
          · rw [hn] at hprop
            simp only [Option.some.injEq, Prod.mk.injEq] at hprop
            exact hprop.2 ▸ dropPre_length hn
        calc rest.length = rest'.length := by rw [← h.2.2.2]
          _ ≤ (cs1.dropWhile Char.isDigit).length := hrest'
          _ ≤ cs1.length := length_dropWhile_le' _ _
          _ ≤ cs.length := hcs1

/-- The replace pass
`value.replace(/<(stat|section):(\d+):(name|value|emoji)>/g, resolveVariableValue)`
as a left-to-right scan. -/
def resolveScan (stats : List Stat) (sections : List SectionT) (locale : String) :
    List Char → List Char
  | [] => []
  | c :: cs =>
    if c = '<' then
      match h : parseRef cs with
      | some (kind, ds, prop, rest) =>
        (resolveVariableValue stats sections locale kind (String.mk ds) prop).data
          ++ resolveScan stats sections locale rest
      | none => c :: resolveScan stats sections locale cs
    else c :: resolveScan stats sections locale cs
termination_by cs => cs.length
decreasing_by
  · exact Nat.lt_succ_of_le (parseRef_length h)
  · simp
  · simp

/-- The first substitution pass of `SmartPreview` over a text. -/
def resolveTokensPass (stats : List Stat) (sections : List SectionT)
    (locale : String) (text : String) : String :=
  String.mk (resolveScan stats sections locale text.data)

/-! ### `evaluateMathExpression` / `evaluateDiceExpression`

Both first substitute every `<stat:ID:value>` token in the payload by a
numeric literal (regex `/<(stat):(\d+):(value)>/g`) and then hand the
whole substituted string to the external collaborator (math.js
`evaluate`, resp. the dice roller), which we model as a function
parameter. -/

/-- The replacer callback of `evaluateMathExpression`: numeric value
for a stat id inside a `<math:...>` payload (`'0'` when the id does not
resolve). -/
def mathValueOf (stats : List Stat) (numId : Nat) : String :=
  match statFind stats numId with
  | none => "0"
  | some stat =>
    match stat.body with
    | StatBody.numeric mn _ => toString (jsOrI mn 1)
    | StatBody.boolean => "0"
    | StatBody.enum options =>
      match options with
      | Sum.inl (o :: _) => toString o.value
      | Sum.inl [] => "1"
      | Sum.inr r =>
        if r > 0 then
          match stats.find? (fun s => (s.id : Int) = r) with
          | some rs =>
            match rs.body with
            | StatBody.enum (Sum.inl (o :: _)) => toString o.value
            | _ => "1"
          | none => "1"
        else "1"
    | StatBody.calculated _ => "0"
    | StatBody.stringS _ _ => "0"

/-- The replacer callback of `evaluateDiceExpression` (`'3'` when the
id does not resolve). -/
def diceValueOf (stats : List Stat) (numId : Nat) : String :=
  match statFind stats numId with
  | none => "3"
  | some stat =>
    match stat.body with
    | StatBody.numeric mn _ => toString (jsOrI mn 3)
    | StatBody.boolean => "1"
    | StatBody.enum options =>
      match options with
      | Sum.inl (o :: _) => toString o.value
      | Sum.inl [] => "2"
      | Sum.inr r =>
        if r > 0 then
          match stats.find? (fun s => (s.id : Int) = r) with
          | some rs =>
            match rs.body with
            | StatBody.enum (Sum.inl (o :: _)) => toString o.value
            | _ => "2"
          | none => "2"
        else "2"
    | StatBody.calculated _ => "3"
    | StatBody.stringS _ _ => "3"

/-- The `expression.replace(/<(stat):(\d+):(value)>/g, ...)` pass of
`evaluateMathExpression`. -/
def mathScan (stats : List Stat) : List Char → List Char
  | [] => []
  | c :: cs =>
    if c = '<' then
      match h : parseSV cs with
      | some (ds, rest) => (mathValueOf stats (digitsToNat ds)).data ++ mathScan stats rest
      | none => c :: mathScan stats cs
    else c :: mathScan stats cs
termination_by cs => cs.length
decreasing_by
  · exact Nat.lt_succ_of_le (parseSV_length h)
  · simp
  · simp

/-- The same pass for `evaluateDiceExpression`. -/
def diceScan (stats : List Stat) : List Char → List Char
  | [] => []
  | c :: cs =>
    if c = '<' then
      match h : parseSV cs with
      | some (ds, rest) => (diceValueOf stats (digitsToNat ds)).data ++ diceScan stats rest
      | none => c :: diceScan stats cs
    else c :: diceScan stats cs
termination_by cs => cs.length
decreasing_by
  · exact Nat.lt_succ_of_le (parseSV_length h)
  · simp
  · simp

/-- `processedExpression` of `evaluateMathExpression`. -/
def mathSubstitute (stats : List Stat) (expression : String) : String :=
  String.mk (mathScan stats expression.data)

/-- `processedExpression` of `evaluateDiceExpression`. -/
def diceSubstitute (stats : List Stat) (expression : String) : String :=
  String.mk (diceScan stats expression.data)

/-- `evaluateMathExpression`, with the external math.js `evaluate`
(composed with the JS stringification of its result) modelled as `ev`;
`none` models a thrown evaluation error, caught and rendered inline. -/
def evaluateMathExpression (ev : String → Option String) (stats : List Stat)
    (expression : String) : String :=
  match ev (mathSubstitute stats expression) with
  | some result => result
  | none => "[Erro: " ++ expression ++ "]"

/-- `evaluateDiceExpression`, with the external dice roller modelled as
`roller` (`Except.error msg` models a thrown `Error` with that
message). -/
def evaluateDiceExpression (roller : String → Except String String)
    (stats : List Stat) (expression : String) : String :=
  match roller (diceSubstitute stats expression) with
  | Except.ok output => "🎲 " ++ output
  | Except.error msg => "[Erro dados: " ++ msg ++ "]"

/-! ### Scanner stepping lemmas -/

theorem dropPre_self_append (p rest : List Char) : dropPre p (p ++ rest) = some rest := by
  induction p with
  | nil => rfl
  | cons x xs ih => simp [dropPre, ih]

theorem takeWhile_digits_append {ds : List Char} (c₀ : Char) (tl : List Char)
    (hdig : ∀ c ∈ ds, Char.isDigit c) (hc : Char.isDigit c₀ = false) :
    (ds ++ c₀ :: tl).takeWhile Char.isDigit = ds ∧
      (ds ++ c₀ :: tl).dropWhile Char.isDigit = c₀ :: tl := by
  induction ds with
  | nil => simp [List.takeWhile_cons, List.dropWhile_cons, hc]
  | cons d ds ih =>
    have hd : Char.isDigit d = true := hdig d (by simp)
    have ih' := ih (fun c hcm => hdig c (by simp [hcm]))
    simp [List.takeWhile_cons, List.dropWhile_cons, hd, ih'.1, ih'.2]

/-- `parseSV` recognizes a well-formed `<stat:DIGITS:value>` token tail. -/
theorem parseSV_token {ds : List Char} (post : List Char) (hne : ds ≠ [])
    (hdig : ∀ c ∈ ds, Char.isDigit c) :
    parseSV ("stat:".data ++ (ds ++ (":value>".data ++ post))) = some (ds, post) := by
  have hcolon : (":value>".data ++ post) = ':' :: ("value>".data ++ post) := rfl
  have htw := takeWhile_digits_append ':' ("value>".data ++ post) hdig (by decide)
  unfold parseSV
  rw [dropPre_self_append]
  simp only [hcolon] at htw ⊢
  rw [htw.1, htw.2]
  have hpe : ds.isEmpty = false := by
    cases ds with
    | nil => exact absurd rfl hne
    | cons a l => rfl
  rw [hpe]
  simp only [Bool.false_eq_true, if_false]
  have : (':' :: ("value>".data ++ post)) = ":value>".data ++ post := rfl
  rw [this, dropPre_self_append]

theorem mathScan_cons_ne {stats : List Stat} {c : Char} {cs : List Char} (hc : ¬ c = '<') :
    mathScan stats (c :: cs) = c :: mathScan stats cs := by
  rw [mathScan, if_neg hc]

theorem mathScan_noLt {stats : List Stat} {pre : List Char} (cs : List Char)
    (hpre : ∀ c ∈ pre, ¬ c = '<') :
    mathScan stats (pre ++ cs) = pre ++ mathScan stats cs := by
  induction pre with
  | nil => rfl
  | cons c p ih =>
    rw [List.cons_append, mathScan_cons_ne (hpre c (by simp)),
      ih (fun c hcm => hpre c (by simp [hcm]))]
    rfl

theorem mathScan_token {stats : List Stat} {cs ds rest : List Char}
    (hparse : parseSV cs = some (ds, rest)) :
    mathScan stats ('<' :: cs) =
      (mathValueOf stats (digitsToNat ds)).data ++ mathScan stats rest := by
  rw [mathScan, if_pos rfl]
  split
  next ds' rest' h' =>
    rw [hparse] at h'
    cases h'
    rfl
  next h' =>
    rw [hparse] at h'
    cases h'

theorem diceScan_cons_ne {stats : List Stat} {c : Char} {cs : List Char} (hc : ¬ c = '<') :
    diceScan stats (c :: cs) = c :: diceScan stats cs := by
  rw [diceScan, if_neg hc]

theorem diceScan_noLt {stats : List Stat} {pre : List Char} (cs : List Char)
    (hpre : ∀ c ∈ pre, ¬ c = '<') :
    diceScan stats (pre ++ cs) = pre ++ diceScan stats cs := by
  induction pre with
  | nil => rfl
  | cons c p ih =>
    rw [List.cons_append, diceScan_cons_ne (hpre c (by simp)),
      ih (fun c hcm => hpre c (by simp [hcm]))]
    rfl

theorem diceScan_token {stats : List Stat} {cs ds rest : List Char}
    (hparse : parseSV cs = some (ds, rest)) :
    diceScan stats ('<' :: cs) =
      (diceValueOf stats (digitsToNat ds)).data ++ diceScan stats rest := by
  rw [diceScan, if_pos rfl]
  split
  next ds' rest' h' =>
    rw [hparse] at h'
    cases h'
    rfl
  next h' =>
    rw [hparse] at h'
    cases h'

theorem resolveScan_cons_ne {stats : List Stat} {sections : List SectionT}
    {locale : String} {c : Char} {cs : List Char} (hc : ¬ c = '<') :
    resolveScan stats sections locale (c :: cs) =
      c :: resolveScan stats sections locale cs := by
  rw [resolveScan, if_neg hc]

theorem resolveScan_noLt {stats : List Stat} {sections : List SectionT}
    {locale : String} {pre : List Char} (cs : List Char)
    (hpre : ∀ c ∈ pre, ¬ c = '<') :
    resolveScan stats sections locale (pre ++ cs) =
      pre ++ resolveScan stats sections locale cs := by
  induction pre with
  | nil => rfl
  | cons c p ih =>
    rw [List.cons_append, resolveScan_cons_ne (hpre c (by simp)),
      ih (fun c hcm => hpre c (by simp [hcm]))]
    rfl

theorem resolveScan_token {stats : List Stat} {sections : List SectionT}
    {locale kind prop : String} {cs ds rest : List Char}
    (hparse : parseRef cs = some (kind, ds, prop, rest)) :
    resolveScan stats sections locale ('<' :: cs) =
      (resolveVariableValue stats sections locale kind (String.mk ds) prop).data
        ++ resolveScan stats sections locale rest := by
  rw [resolveScan, if_pos rfl]
  split
  next kind' ds' prop' rest' h' =>
    rw [hparse] at h'
    cases h'
    rfl
  next h' =>
    rw [hparse] at h'
    cases h'

theorem depScan_cons_ne {c : Char} {cs : List Char} (hc : ¬ c = '<') :
    depScan (c :: cs) = depScan cs := by
  rw [depScan, if_neg hc]

theorem depScan_noLt {pre : List Char} (cs : List Char)
    (hpre : ∀ c ∈ pre, ¬ c = '<') :
    depScan (pre ++ cs) = depScan cs := by
  induction pre with
  | nil => rfl
  | cons c p ih =>
    rw [List.cons_append, depScan_cons_ne (hpre c (by simp)),
      ih (fun c hcm => hpre c (by simp [hcm]))]

theorem depScan_token {cs ds rest : List Char}
    (hparse : parseSV cs = some (ds, rest)) :
    depScan ('<' :: cs) = digitsToNat ds :: depScan rest := by
  rw [depScan, if_pos rfl]
  split
  next ds' rest' h' =>
    rw [hparse] at h'
    cases h'
    rfl
  next h' =>
    rw [hparse] at h'
    cases h'

theorem depScan_fail {cs : List Char} (hparse : parseSV cs = none) :
    depScan ('<' :: cs) = depScan cs := by
  rw [depScan, if_pos rfl]
  split
  next ds' rest' h' =>
    rw [hparse] at h'
    cases h'
  next h' =>
    rfl

theorem depLoop_cons_ne {acc : List Nat} {c : Char} {cs : List Char} (hc : ¬ c = '<') :
    depLoop acc (c :: cs) = depLoop acc cs := by
  rw [depLoop, if_neg hc]

theorem depLoop_token {acc : List Nat} {cs ds rest : List Char}
    (hparse : parseSV cs = some (ds, rest)) :
    depLoop acc ('<' :: cs) =
      depLoop (if digitsToNat ds ∈ acc then acc else acc ++ [digitsToNat ds]) rest := by
  rw [depLoop, if_pos rfl]
  split
  next ds' rest' h' =>
    rw [hparse] at h'
    cases h'
    rfl
  next h' =>
    rw [hparse] at h'
    cases h'

theorem depLoop_fail {acc : List Nat} {cs : List Char} (hparse : parseSV cs = none) :
    depLoop acc ('<' :: cs) = depLoop acc cs := by
  rw [depLoop, if_pos rfl]
  split
  next ds' rest' h' =>
    rw [hparse] at h'
    cases h'
  next h' =>
    rfl

/-! ### `parseRef` on well-formed tokens -/

theorem dropPre_stat_section (x : List Char) :
    dropPre "stat:".data ("section:".data ++ x) = none := rfl

theorem dropPre_name_value (x : List Char) :
    dropPre ":name>".data (":value>".data ++ x) = none := rfl

theorem dropPre_name_emoji (x : List Char) :
    dropPre ":name>".data (":emoji>".data ++ x) = none := rfl

theorem dropPre_value_emoji (x : List Char) :
    dropPre ":value>".data (":emoji>".data ++ x) = none := rfl

/-- A property suffix of the pass-1 token regex: the literal tail
`pstr` and the captured property name `pname`. -/
def PropShape (pstr pname : String) : Prop :=
  (pstr = ":name>" ∧ pname = "name") ∨ (pstr = ":value>" ∧ pname = "value") ∨
    (pstr = ":emoji>" ∧ pname = "emoji")

theorem parseRef_stat_token {ds : List Char} (post : List Char) {pstr pname : String}
    (hp : PropShape pstr pname) (hne : ds ≠ []) (hdig : ∀ c ∈ ds, Char.isDigit c) :
    parseRef ("stat:".data ++ (ds ++ (pstr.data ++ post))) =
      some ("stat", ds, pname, post) := by
  have hpe : ds.isEmpty = false := by
    cases ds with
    | nil => exact absurd rfl hne
    | cons a l => rfl
  rcases hp with ⟨rfl, rfl⟩ | ⟨rfl, rfl⟩ | ⟨rfl, rfl⟩
  · have htw := takeWhile_digits_append ':' ("name>".data ++ post) hdig (by decide)
    have hsh : (":name>".data ++ post) = ':' :: ("name>".data ++ post) := rfl
    unfold parseRef
    rw [dropPre_self_append]
    simp only [hsh] at htw ⊢
    rw [htw.1, htw.2, hpe]
    simp only [Bool.false_eq_true, if_false]
    have hba : (':' :: ("name>".data ++ post)) = ":name>".data ++ post := rfl
    rw [hba, dropPre_self_append]
  · have htw := takeWhile_digits_append ':' ("value>".data ++ post) hdig (by decide)
    have hsh : (":value>".data ++ post) = ':' :: ("value>".data ++ post) := rfl
    unfold parseRef
    rw [dropPre_self_append]
    simp only [hsh] at htw ⊢
    rw [htw.1, htw.2, hpe]
    simp only [Bool.false_eq_true, if_false]
    have hba : (':' :: ("value>".data ++ post)) = ":value>".data ++ post := rfl
    rw [hba, dropPre_name_value, dropPre_self_append]
  · have htw := takeWhile_digits_append ':' ("emoji>".data ++ post) hdig (by decide)
    have hsh : (":emoji>".data ++ post) = ':' :: ("emoji>".data ++ post) := rfl
    unfold parseRef
    rw [dropPre_self_append]
    simp only [hsh] at htw ⊢
    rw [htw.1, htw.2, hpe]
    simp only [Bool.false_eq_true, if_false]
    have hba : (':' :: ("emoji>".data ++ post)) = ":emoji>".data ++ post := rfl
    rw [hba, dropPre_name_emoji, dropPre_value_emoji, dropPre_self_append]

theorem parseRef_section_token {ds : List Char} (post : List Char) {pstr pname : String}
    (hp : PropShape pstr pname) (hne : ds ≠ []) (hdig : ∀ c ∈ ds, Char.isDigit c) :
    parseRef ("section:".data ++ (ds ++ (pstr.data ++ post))) =
      some ("section", ds, pname, post) := by
  have hpe : ds.isEmpty = false := by
    cases ds with
    | nil => exact absurd rfl hne
    | cons a l => rfl
  rcases hp with ⟨rfl, rfl⟩ | ⟨rfl, rfl⟩ | ⟨rfl, rfl⟩
  · have htw := takeWhile_digits_append ':' ("name>".data ++ post) hdig (by decide)
    have hsh : (":name>".data ++ post) = ':' :: ("name>".data ++ post) := rfl
    unfold parseRef
    rw [dropPre_stat_section, dropPre_self_append]
    simp only [hsh] at htw ⊢
    rw [htw.1, htw.2, hpe]
    simp only [Bool.false_eq_true, if_false]
    have hba : (':' :: ("name>".data ++ post)) = ":name>".data ++ post := rfl
    rw [hba, dropPre_self_append]
  · have htw := takeWhile_digits_append ':' ("value>".data ++ post) hdig (by decide)
    have hsh : (":value>".data ++ post) = ':' :: ("value>".data ++ post) := rfl
    unfold parseRef
    rw [dropPre_stat_section, dropPre_self_append]
    simp only [hsh] at htw ⊢
    rw [htw.1, htw.2, hpe]
    simp only [Bool.false_eq_true, if_false]
    have hba : (':' :: ("value>".data ++ post)) = ":value>".data ++ post := rfl
    rw [hba, dropPre_name_value, dropPre_self_append]
  · have htw := takeWhile_digits_append ':' ("emoji>".data ++ post) hdig (by decide)
    have hsh : (":emoji>".data ++ post) = ':' :: ("emoji>".data ++ post) := rfl
    unfold parseRef
    rw [dropPre_stat_section, dropPre_self_append]
    simp only [hsh] at htw ⊢
    rw [htw.1, htw.2, hpe]
    simp only [Bool.false_eq_true, if_false]
    have hba : (':' :: ("emoji>".data ++ post)) = ":emoji>".data ++ post := rfl
    rw [hba, dropPre_name_emoji, dropPre_value_emoji, dropPre_self_append]

/-! ### Claim C6 -/

/-- C6: for every schema, a `<stat:ID:p>` token whose id does not exist
resolves to the bracketed diagnostic `[Stat ID não encontrado]` embedded
inline; a `<section:ID:p>` token with unknown id resolves to
`[Seção ID não encontrada]`; a `<section:ID:value>` token (unknown
property for sections) resolves to `[propriedade value desconhecida]`.
In each case the surrounding text (`pre`, with no `<`, and `post`) is
left to the normal scan, and the resolver — a total function — never
throws. -/
theorem c6_resolver_inline_diagnostics
    (stats : List Stat) (sections : List SectionT) (locale : String)
    (pre post ds : List Char) (pstr pname : String)
    (hpre : ∀ c ∈ pre, ¬ c = '<')
    (hne : ds ≠ []) (hdig : ∀ c ∈ ds, Char.isDigit c)
    (hp : PropShape pstr pname) :
    (statFind stats (digitsToNat ds) = none →
      resolveTokensPass stats sections locale
        (String.mk (pre ++ '<' :: ("stat:".data ++ (ds ++ (pstr.data ++ post))))) =
      String.mk (pre ++ ("[Stat " ++ String.mk ds ++ " não encontrado]").data
        ++ resolveScan stats sections locale post)) ∧
    (sectionFind sections (digitsToNat ds) = none →
      resolveTokensPass stats sections locale
        (String.mk (pre ++ '<' :: ("section:".data ++ (ds ++ (pstr.data ++ post))))) =
      String.mk (pre ++ ("[Seção " ++ String.mk ds ++ " não encontrada]").data
        ++ resolveScan stats sections locale post)) ∧
    (∀ sec, sectionFind sections (digitsToNat ds) = some sec → pname = "value" →
      resolveTokensPass stats sections locale
        (String.mk (pre ++ '<' :: ("section:".data ++ (ds ++ (pstr.data ++ post))))) =
      String.mk (pre ++ ("[propriedade value desconhecida]").data
        ++ resolveScan stats sections locale post)) := by
  refine ⟨?_, ?_, ?_⟩
  · intro hfind
    show String.mk (resolveScan stats sections locale
      (pre ++ '<' :: ("stat:".data ++ (ds ++ (pstr.data ++ post))))) = _
    apply congrArg String.mk
    rw [resolveScan_noLt _ hpre,
      resolveScan_token (parseRef_stat_token post hp hne hdig)]
    have hrvv : resolveVariableValue stats sections locale "stat" (String.mk ds) pname =
        "[Stat " ++ String.mk ds ++ " não encontrado]" := by
      unfold resolveVariableValue
      rw [if_pos rfl, parseIntS_mk, hfind]
    rw [hrvv, List.append_assoc]
  · intro hfind
    show String.mk (resolveScan stats sections locale
      (pre ++ '<' :: ("section:".data ++ (ds ++ (pstr.data ++ post))))) = _
    apply congrArg String.mk
    rw [resolveScan_noLt _ hpre,
      resolveScan_token (parseRef_section_token post hp hne hdig)]
    have hrvv : resolveVariableValue stats sections locale "section" (String.mk ds) pname =
        "[Seção " ++ String.mk ds ++ " não encontrada]" := by
      unfold resolveVariableValue
      rw [if_neg (by decide), if_pos rfl, parseIntS_mk, hfind]
    rw [hrvv, List.append_assoc]
  · intro sec hfind hval
    subst hval
    show String.mk (resolveScan stats sections locale
      (pre ++ '<' :: ("section:".data ++ (ds ++ (pstr.data ++ post))))) = _
    apply congrArg String.mk
    rw [resolveScan_noLt _ hpre,
      resolveScan_token (parseRef_section_token post hp hne hdig)]
    have hrvv : resolveVariableValue stats sections locale "section" (String.mk ds) "value" =
        "[propriedade value desconhecida]" := by
      unfold resolveVariableValue
      rw [if_neg (by decide), if_pos rfl, parseIntS_mk, hfind]
      rfl
    rw [hrvv, List.append_assoc]

/-- Witness for C6 at a concrete schema and text. -/
theorem c6_witness :
    resolveTokensPass [] [] "default" "Olá <stat:99:value> fim" =
      "Olá [Stat 99 não encontrado] fim" := by
  have h := (c6_resolver_inline_diagnostics [] [] "default"
    "Olá ".data " fim".data "99".data ":value>" "value"
    (by decide) (by decide) (by decide)
    (Or.inr (Or.inl ⟨rfl, rfl⟩))).1 rfl
  have hscan : resolveScan [] [] "default" " fim".data = " fim".data := by
    simp [resolveScan, parseRef, dropPre]
  rw [hscan] at h
  have hin : String.mk ("Olá ".data ++ '<' ::
      ("stat:".data ++ ("99".data ++ (":value>".data ++ " fim".data)))) =
      "Olá <stat:99:value> fim" := by decide
  have hout : String.mk ("Olá ".data ++
      ("[Stat " ++ String.mk "99".data ++ " não encontrado]").data ++ " fim".data) =
      "Olá [Stat 99 não encontrado] fim" := by decide
  rw [hin, hout] at h
  exact h

/-! ### Claim C10 -/

/-- C10: inside `<math:...>` and `<dice:...>` payloads, a
`<stat:ID:value>` token whose id does not exist in the schema is
silently substituted by the fixed literal `"0"` (math) resp. `"3"`
(dice) — no bracketed diagnostic — so the collaborator receives a
numeric string and the missing reference is invisible. -/
theorem c10_payload_missing_id_silent
    (stats : List Stat) (pre post ds : List Char)
    (hpre : ∀ c ∈ pre, ¬ c = '<')
    (hne : ds ≠ []) (hdig : ∀ c ∈ ds, Char.isDigit c)
    (hfind : statFind stats (digitsToNat ds) = none) :
    mathSubstitute stats
        (String.mk (pre ++ '<' :: ("stat:".data ++ (ds ++ (":value>".data ++ post))))) =
      String.mk (pre ++ "0".data ++ mathScan stats post) ∧
    diceSubstitute stats
        (String.mk (pre ++ '<' :: ("stat:".data ++ (ds ++ (":value>".data ++ post))))) =
      String.mk (pre ++ "3".data ++ diceScan stats post) := by
  constructor
  · show String.mk (mathScan stats
      (pre ++ '<' :: ("stat:".data ++ (ds ++ (":value>".data ++ post))))) = _
    apply congrArg String.mk
    rw [mathScan_noLt _ hpre, mathScan_token (parseSV_token post hne hdig)]
    have hval : mathValueOf stats (digitsToNat ds) = "0" := by
      unfold mathValueOf
      rw [hfind]
    rw [hval, List.append_assoc]
  · show String.mk (diceScan stats
      (pre ++ '<' :: ("stat:".data ++ (ds ++ (":value>".data ++ post))))) = _
    apply congrArg String.mk
    rw [diceScan_noLt _ hpre, diceScan_token (parseSV_token post hne hdig)]
    have hval : diceValueOf stats (digitsToNat ds) = "3" := by
      unfold diceValueOf
      rw [hfind]
    rw [hval, List.append_assoc]

/-- Witness for C10 at a concrete payload. -/
theorem c10_witness :
    mathSubstitute [] "<stat:99:value> + 2" = "0 + 2" ∧
      diceSubstitute [] "<stat:99:value>d6" = "3d6" := by
  constructor
  · have h := (c10_payload_missing_id_silent [] [] " + 2".data "99".data
      (by decide) (by decide) (by decide) rfl).1
    have hscan : mathScan [] " + 2".data = " + 2".data := by
      simp [mathScan, parseSV, dropPre]
    rw [hscan] at h
    have hin : String.mk (([] : List Char) ++ '<' ::
        ("stat:".data ++ ("99".data ++ (":value>".data ++ " + 2".data)))) =
        "<stat:99:value> + 2" := by decide
    have hout : String.mk (([] : List Char) ++ "0".data ++ " + 2".data) = "0 + 2" := by decide
    rw [hin, hout] at h
    exact h
  · have h := (c10_payload_missing_id_silent [] [] "d6".data "99".data
      (by decide) (by decide) (by decide) rfl).2
    have hscan : diceScan [] "d6".data = "d6".data := by
      simp [diceScan, parseSV, dropPre]
    rw [hscan] at h
    have hin : String.mk (([] : List Char) ++ '<' ::
        ("stat:".data ++ ("99".data ++ (":value>".data ++ "d6".data)))) =
        "<stat:99:value>d6" := by decide
    have hout : String.mk (([] : List Char) ++ "3".data ++ "d6".data) = "3d6" := by decide
    rw [hin, hout] at h
    exact h

/-! ### Claim C4 -/

/-- A numeric stat with declared minimum `0`. -/
def c4StatZero : Stat :=
  { id := 1, name := { default := "Força" }, body := StatBody.numeric (some 0) none }

/-- C4 counterexample: the code computes `String(stat.min || 1)`, and JS
`||` treats the declared minimum `0` as absent, so a numeric stat with
`min = 0` resolves to `"1"`, not to its declared minimum `"0"`. -/
theorem c4_counterexample :
    c4StatZero.body = StatBody.numeric (some 0) none ∧
      statFind [c4StatZero] 1 = some c4StatZero ∧
      resolveVariableValue [c4StatZero] [] "default" "stat" "1" "value" = "1" ∧
      resolveVariableValue [c4StatZero] [] "default" "stat" "1" "value" ≠
        toString (0 : Int) := by
  refine ⟨rfl, by decide, by decide, by decide⟩

/-- The stat of the spec's example: numeric with `min = 3`. -/
def c4Stats3 : List Stat :=
  [{ id := 1, name := { default := "Força" }, body := StatBody.numeric (some 3) (some 10) }]

theorem c4_sub3 : mathSubstitute c4Stats3 "<stat:1:value> + 2" = "3 + 2" := by
  have hscan : mathScan c4Stats3 "<stat:1:value> + 2".data = "3 + 2".data := by
    simp [mathScan, parseSV, dropPre, mathValueOf, statFind, jsOrI, digitsToNat, c4Stats3]
    decide
  show String.mk (mathScan c4Stats3 "<stat:1:value> + 2".data) = "3 + 2"
  rw [hscan]

/-- C4 (amended): for every numeric stat whose declared minimum `m` is
nonzero, resolving `<stat:ID:value>` yields `String(m)` (for `m = 0`
the JS `||` falls back to the default instead); and, as in the spec's
example, with `min = 3` the math payload `<stat:1:value> + 2` is
substituted to `3 + 2` and the resolver's output equals the external
evaluator's result for `3 + 2`. -/
theorem c4_numeric_min_sample
    (stats : List Stat) (sections : List SectionT) (locale : String)
    (idS : String) (st : Stat) (m : Int) (mx : Option Int)
    (hfind : statFind stats (parseIntS idS) = some st)
    (hbody : st.body = StatBody.numeric (some m) mx)
    (hm : m ≠ 0) :
    resolveVariableValue stats sections locale "stat" idS "value" = toString m ∧
    (∀ ev : String → Option String, ∀ r, ev "3 + 2" = some r →
      evaluateMathExpression ev c4Stats3 "<stat:1:value> + 2" = r) := by
  constructor
  · have h1 : statValueSample stats st locale = toString m := by
      unfold statValueSample
      simp only [hbody]
      simp [jsOrI, hm]
    unfold resolveVariableValue
    rw [if_pos rfl]
    simp only [hfind]
    simp [h1]
  · intro ev r hr
    unfold evaluateMathExpression
    rw [c4_sub3, hr]

/-- Witness for C4 (amended) at the spec's own example. -/
theorem c4_witness :
    resolveVariableValue c4Stats3 [] "default" "stat" "1" "value" = "3" ∧
      evaluateMathExpression (fun s => if s = "3 + 2" then some "5" else none)
        c4Stats3 "<stat:1:value> + 2" = "5" := by
  have h := c4_numeric_min_sample c4Stats3 [] "default" "1"
    { id := 1, name := { default := "Força" }, body := StatBody.numeric (some 3) (some 10) }
    3 (some 10) (by decide) rfl (by decide)
  constructor
  · have h1 := h.1
    rw [show toString (3 : Int) = "3" from rfl] at h1
    exact h1
  · exact h.2 (fun s => if s = "3 + 2" then some "5" else none) "5" (by decide)

/-! ### Claim C3: the two formula-edit commit paths of
`StatCalculatedEditor` -/

/-- `patch({ formula })` on the edited calculated stat. -/
def setFormula (value : Stat) (formula : String) : Stat :=
  { value with body := StatBody.calculated formula }

/-- `confirmFormula(formula)`: the math-editor commit path — refuses
the mutation when the proposed formula would create a cycle, otherwise
commits it.  Returns the resulting stat value. -/
def confirmFormula (value : Stat) (allStats : List Stat) (formula : String) : Stat :=
  if hasCircularDependency value.id formula allStats then value
  else setFormula value formula

/-- The plain formula `Input`'s `onChange`:
`(e) => patch({ formula: e.target.value })` — commits unchecked. -/
def formulaInputChange (value : Stat) (text : String) : Stat :=
  setFormula value text

/-- C3 counterexample: typing a self-referential formula into the plain
formula `Input` commits the mutation even though it introduces a
circular dependency — the stored formula does not remain unchanged. -/
theorem c3_counterexample :
    hasCircularDependency 1 "<stat:1:value>" [mkCalc 1 ""] = true ∧
      formulaInputChange (mkCalc 1 "") "<stat:1:value>" ≠ mkCalc 1 "" := by
  constructor
  · simp [hasCircularDependency, checkRec, checkDeps, findStatDependencies, depLoop,
      parseSV, dropPre, digitsToNat, statFind, mkCalc]
  · intro h
    have := congrArg Stat.body h
    simp [formulaInputChange, setFormula, mkCalc] at this

/-- C3 (amended): a formula edit submitted through the math editor's
confirm (`confirmFormula`) is rejected pre-commit when the proposed
formula would introduce a circular dependency — the stat is left
unchanged; edits typed directly into the formula `Input` are committed
without any cycle check (and only flagged afterwards by `validate`). -/
theorem c3_confirmFormula_rejects (value : Stat) (allStats : List Stat) (formula : String)
    (h : hasCircularDependency value.id formula allStats = true) :
    confirmFormula value allStats formula = value := by
  unfold confirmFormula
  rw [h]
  rfl

/-- Witness for C3 (amended). -/
theorem c3_witness : confirmFormula (mkCalc 1 "") [mkCalc 1 ""] "<stat:1:value>" = mkCalc 1 "" :=
  c3_confirmFormula_rejects (mkCalc 1 "") [mkCalc 1 ""] "<stat:1:value>"
    (by simp [hasCircularDependency, checkRec, checkDeps, findStatDependencies, depLoop,
      parseSV, dropPre, digitsToNat, statFind, mkCalc])

/-! ### Claim C8: `ReplacementEditor` key/option stat sets -/

/-- `usedStatIds.add(...)` over a list of matches (JS `Set` keeps
insertion order; de-duplicated accumulator list). -/
def addAll (acc : List Nat) (ids : List Nat) : List Nat :=
  ids.foldl (fun a i => if i ∈ a then a else a ++ [i]) acc

/-- One `dices.forEach` step of `getStatsUsedInDices`: collect the ids
of `<stat:ID:value>` tokens in the dice expression and, when present,
in the condition's two values. -/
def usedStep (acc : List Nat) (dice : Dice) : List Nat :=
  let acc1 := if dice.expression ≠ "" then addAll acc (depScan dice.expression.data)
    else acc
  match dice.condition with
  | some c => addAll (addAll acc1 (depScan c.value1.data)) (depScan c.value2.data)
  | none => acc1

/-- `getStatsUsedInDices()` from `ReplacementEditor`: ids referenced by
`<stat:ID:value>` tokens in the dice expressions and their condition
values. -/
def getStatsUsedInDices (dices : List Dice) : List Nat :=
  dices.foldl usedStep []

/-- The type filter of `validKeyStats` / `validOptionStats`:
`numeric | boolean | enum | calculated` (never `string`). -/
def replOk (st : Stat) : Bool :=
  match st.body with
  | StatBody.numeric _ _ => true
  | StatBody.boolean => true
  | StatBody.enum _ => true
  | StatBody.calculated _ => true
  | StatBody.stringS _ _ => false

/-- `validKeyStats` from `ReplacementEditor`. -/
def validKeyStats (stats : List Stat) (dices : List Dice) : List Stat :=
  stats.filter (fun st => decide (st.id ∈ getStatsUsedInDices dices) && replOk st)

/-- `validOptionStats` from `ReplacementEditor`. -/
def validOptionStats (stats : List Stat) : List Stat :=
  stats.filter replOk

theorem mem_addAll {acc l : List Nat} {x : Nat} :
    x ∈ addAll acc l ↔ x ∈ acc ∨ x ∈ l := by
  induction l generalizing acc with
  | nil => simp [addAll]
  | cons i l ih =>
    show x ∈ addAll (if i ∈ acc then acc else acc ++ [i]) l ↔ _
    rw [ih]
    by_cases hi : i ∈ acc
    · simp only [if_pos hi, List.mem_cons]
      constructor
      · rintro (h | h)
        · exact Or.inl h
        · exact Or.inr (Or.inr h)
      · rintro (h | rfl | h)
        · exact Or.inl h
        · exact Or.inl hi
        · exact Or.inr h
    · simp only [if_neg hi, List.mem_append, List.mem_singleton, List.mem_cons]
      tauto

/-- The id usage predicate of claim C8: referenced via a
`<stat:ID:value>` token in some dice expression or its condition. -/
def UsedInDices (i : Nat) (dices : List Dice) : Prop :=
  ∃ d ∈ dices, i ∈ depScan d.expression.data ∨
    ∃ c, d.condition = some c ∧
      (i ∈ depScan c.value1.data ∨ i ∈ depScan c.value2.data)

theorem mem_usedStep {acc : List Nat} {d : Dice} {i : Nat} :
    i ∈ usedStep acc d ↔
      i ∈ acc ∨ i ∈ depScan d.expression.data ∨
        ∃ c, d.condition = some c ∧
          (i ∈ depScan c.value1.data ∨ i ∈ depScan c.value2.data) := by
  have hacc1 : i ∈ (if d.expression ≠ "" then addAll acc (depScan d.expression.data)
      else acc) ↔ i ∈ acc ∨ i ∈ depScan d.expression.data := by
    by_cases he : d.expression = ""
    · rw [if_neg (by simp [he])]
      have hnil : depScan d.expression.data = [] := by
        rw [he]
        show depScan [] = []
        rw [depScan]
      simp [hnil]
    · rw [if_pos he, mem_addAll]
  rcases hcond : d.condition with _ | c
  · have hstep : usedStep acc d =
        (if d.expression ≠ "" then addAll acc (depScan d.expression.data) else acc) := by
      simp only [usedStep, hcond]
    rw [hstep, hacc1]
    simp [hcond]
  · have hstep : usedStep acc d =
        addAll (addAll (if d.expression ≠ "" then addAll acc (depScan d.expression.data)
          else acc) (depScan c.value1.data)) (depScan c.value2.data) := by
      simp only [usedStep, hcond]
    rw [hstep, mem_addAll, mem_addAll, hacc1]
    constructor
    · rintro (((h | h) | h) | h)
      · exact Or.inl h
      · exact Or.inr (Or.inl h)
      · exact Or.inr (Or.inr ⟨c, rfl, Or.inl h⟩)
      · exact Or.inr (Or.inr ⟨c, rfl, Or.inr h⟩)
    · rintro (h | h | ⟨c', hc', h⟩)
      · exact Or.inl (Or.inl (Or.inl h))
      · exact Or.inl (Or.inl (Or.inr h))
      · obtain rfl : c' = c := (Option.some.inj hc').symm
        rcases h with h | h
        · exact Or.inl (Or.inr h)
        · exact Or.inr h

theorem mem_getStatsUsedInDices {dices : List Dice} {i : Nat} :
    i ∈ getStatsUsedInDices dices ↔ UsedInDices i dices := by
  have hgen : ∀ (ds : List Dice) (acc : List Nat),
      i ∈ ds.foldl usedStep acc ↔ i ∈ acc ∨ UsedInDices i ds := by
    intro ds
    induction ds with
    | nil => simp [UsedInDices]
    | cons d rest ih =>
      intro acc
      rw [List.foldl_cons, ih, mem_usedStep]
      unfold UsedInDices
      simp only [List.mem_cons]
      constructor
      · rintro ((h | h) | h)
        · exact Or.inl h
        · exact Or.inr ⟨d, Or.inl rfl, h⟩
        · obtain ⟨d', hd', hx⟩ := h
          exact Or.inr ⟨d', Or.inr hd', hx⟩
      · rintro (h | ⟨d', (rfl | hd'), hx⟩)
        · exact Or.inl (Or.inl h)
        · exact Or.inl (Or.inr hx)
        · exact Or.inr ⟨d', hd', hx⟩
  simpa [getStatsUsedInDices] using hgen dices []

/-- C8: the stats offered as a replacement key are exactly the stats
whose ids are referenced via `<stat:ID:value>` tokens in the card's
dice expressions or their conditions and whose type is in
`{numeric, boolean, enum, calculated}`; option stats are exactly the
non-`string` stats; `string` stats are never offered as keys or
options. -/
theorem c8_replacement_key_stats (stats : List Stat) (dices : List Dice) (st : Stat) :
    (st ∈ validKeyStats stats dices ↔
      st ∈ stats ∧ UsedInDices st.id dices ∧ replOk st = true) ∧
    (st ∈ validOptionStats stats ↔ st ∈ stats ∧ replOk st = true) ∧
    (∀ mn mx, st.body = StatBody.stringS mn mx →
      st ∉ validKeyStats stats dices ∧ st ∉ validOptionStats stats) := by
  have hkey : st ∈ validKeyStats stats dices ↔
      st ∈ stats ∧ UsedInDices st.id dices ∧ replOk st = true := by
    unfold validKeyStats
    rw [List.mem_filter]
    simp [mem_getStatsUsedInDices, and_assoc]
  have hopt : st ∈ validOptionStats stats ↔ st ∈ stats ∧ replOk st = true := by
    unfold validOptionStats
    rw [List.mem_filter]
  refine ⟨hkey, hopt, ?_⟩
  intro mn mx hbody
  have hnotok : replOk st = false := by
    unfold replOk
    rw [hbody]
  constructor
  · intro hmem
    have := (hkey.mp hmem).2.2
    rw [hnotok] at this
    cases this
  · intro hmem
    have := (hopt.mp hmem).2
    rw [hnotok] at this
    cases this

/-- Concrete key stat for the C8 witness. -/
def c8Stat2 : Stat := { id := 2, name := { default := "B" }, body := StatBody.numeric none none }

/-- Concrete dice for the C8 witness. -/
def c8Dice : Dice := { expression := "1d6 + <stat:2:value>" }

/-- Concrete string stat for the C8 witness. -/
def c8StatS (mnl mxl : Option Int) : Stat :=
  { id := 3, name := { default := "S" }, body := StatBody.stringS mnl mxl }

/-- Witness for C8 at a concrete card. -/
theorem c8_witness :
    c8Stat2 ∈ validKeyStats [c8Stat2] [c8Dice] ∧
      ∀ mnl mxl, c8StatS mnl mxl ∉ validOptionStats [c8StatS mnl mxl] := by
  constructor
  · apply (c8_replacement_key_stats [c8Stat2] [c8Dice] c8Stat2).1.mpr
    refine ⟨by simp, ⟨c8Dice, by simp, Or.inl ?_⟩, rfl⟩
    show c8Stat2.id ∈ depScan c8Dice.expression.data
    simp [depScan, parseSV, dropPre, digitsToNat, c8Dice, c8Stat2]
  · intro mnl mxl
    exact ((c8_replacement_key_stats [c8StatS mnl mxl] [] (c8StatS mnl mxl)).2.2
      mnl mxl rfl).2

/-! ### Schema validator (`validate` in App.tsx)

`validate` receives a parsed JSON value, so `stats` / `sections` may
fail `Array.isArray`; we model such a field with `JArr.notArray`.  The
code pushes "deve ser um array" for it but then still calls
`system.stats.forEach(...)`, which throws a `TypeError` in JS; we model
a thrown exception as `Except.error`. -/

/-- A JSON field that should be an array but may not be. -/
inductive JArr (α : Type) where
  | arr (l : List α)
  | notArray
deriving DecidableEq

/-- `config`: `{ id, name, description }`. -/
structure ConfigT where
  id : Int
  name : Loc
  description : Loc
deriving DecidableEq

/-- A schema value as `validate` receives it. -/
structure RPGSystemJ where
  config : Option ConfigT
  stats : JArr Stat
  sections : JArr SectionT
deriving DecidableEq

/-- The inner `e.options.forEach((o, j) => ...)` of the enum checks:
duplicate option values (against the `seen` set) and empty option
names. -/
def optLoop (idx : Nat) : Nat → List Int → List EnumOpt → List String
  | _, _, [] => []
  | j, seen, o :: rest =>
    (if o.value ∈ seen then
      ["stats[" ++ toString idx ++ "].options[" ++ toString j ++ "].value duplicado: "
        ++ toString o.value] else []) ++
    (if o.name.default = "" then
      ["stats[" ++ toString idx ++ "].options[" ++ toString j ++
        "].name.default é obrigatório"] else []) ++
    optLoop idx (j + 1) (o.value :: seen) rest

/-- The errors one iteration of `system.stats.forEach` pushes (`ids` is
the duplicate-id `Set` accumulated so far). -/
def statErrsOne (stats : List Stat) (idx : Nat) (ids : List Nat) (s : Stat) : List String :=
  (if s.id ∈ ids then
    ["stats[" ++ toString idx ++ "] id duplicado: " ++ toString s.id] else []) ++
  (if s.name.default = "" then
    ["stats[" ++ toString idx ++ "].name.default é obrigatório"] else []) ++
  (match s.body with
   | StatBody.numeric (some mn) (some mx) =>
     if mn > mx then ["stats[" ++ toString idx ++ "] min > max"] else []
   | StatBody.numeric _ _ => []
   | StatBody.enum (Sum.inl opts) =>
     (if opts.length > 25 then
       ["stats[" ++ toString idx ++ "] excede o limite de 25 opções ("
         ++ toString opts.length ++ ")"] else []) ++
     optLoop idx 0 [] opts
   | StatBody.enum (Sum.inr _) => []
   | StatBody.boolean => []
   | StatBody.stringS _ _ => []
   | StatBody.calculated f =>
     (if f = "" then ["stats[" ++ toString idx ++ "].formula é obrigatório"] else []) ++
     (if f ≠ "" ∧ hasCircularDependency s.id f stats then
       ["stats[" ++ toString idx ++ "] tem dependência circular na fórmula"] else []) ++
     ((findStatDependencies f).map (fun depId =>
        match statFind stats depId with
        | none =>
          ["stats[" ++ toString idx ++ "].formula referencia stat inexistente: "
            ++ toString depId]
        | some depStat =>
          match depStat.body with
          | StatBody.stringS _ _ =>
            ["stats[" ++ toString idx ++ "].formula referencia stat do tipo string: "
              ++ toString depId]
          | _ => [])).flatten)

/-- `system.stats.forEach((s, idx) => ...)`. -/
def statsLoop (stats : List Stat) : Nat → List Nat → List Stat → List String
  | _, _, [] => []
  | idx, ids, s :: rest =>
    statErrsOne stats idx ids s ++ statsLoop stats (idx + 1) (s.id :: ids) rest

/-- `system.sections.forEach((sec, i) => ...)`. -/
def sectionsLoop : Nat → List Nat → List SectionT → List String
  | _, _, [] => []
  | i, secIds, sec :: rest =>
    (if sec.id ∈ secIds then
      ["sections[" ++ toString i ++ "] id duplicado: " ++ toString sec.id] else []) ++
    (if sec.name.default = "" then
      ["sections[" ++ toString i ++ "].name.default é obrigatório"] else []) ++
    (if sec.previewType = "" then
      ["sections[" ++ toString i ++ "].preview.type é obrigatório"] else []) ++
    sectionsLoop (i + 1) (sec.id :: secIds) rest

/-- `validate(system)` from App.tsx.  `Except.error` models the
`TypeError` thrown by `forEach` on a non-array field (JS semantics);
`Except.ok` carries the returned error list. -/
def validateE (sys : RPGSystemJ) : Except String (List String) :=
  match sys.stats with
  | JArr.notArray => Except.error "TypeError: system.stats.forEach is not a function"
  | JArr.arr stats =>
    match sys.sections with
    | JArr.notArray => Except.error "TypeError: system.sections.forEach is not a function"
    | JArr.arr secs =>
      Except.ok (
        (match sys.config with
         | none => ["config.id é obrigatório"]
         | some _ => []) ++
        (match sys.config with
         | none => ["config.name.default é obrigatório"]
         | some c => if c.name.default = "" then ["config.name.default é obrigatório"] else []) ++
        (match sys.stats with
         | JArr.arr _ => []
         | JArr.notArray => ["stats deve ser um array"]) ++
        (match sys.sections with
         | JArr.arr _ => []
         | JArr.notArray => ["sections deve ser um array"]) ++
        statsLoop stats 0 [] stats ++
        sectionsLoop 0 [] secs)

/-! ### Claim C2 -/

/-- A schema whose `stats` field is not an array. -/
def c2BadSystem : RPGSystemJ :=
  { config := some { id := 1, name := { default := "Sys" }, description := { default := "" } },
    stats := JArr.notArray,
    sections := JArr.arr [] }

/-- C2 (code bug): on a schema whose `stats` field is not an array,
`validate` is *not* total — it pushes "stats deve ser um array" but
then still calls `system.stats.forEach`, which throws a `TypeError`, so
the collected error list is never returned. -/
theorem c2_validate_throws_on_nonarray :
    validateE c2BadSystem =
      Except.error "TypeError: system.stats.forEach is not a function" := rfl

/-! ### Claim C5 -/

/-- C5 (amended): a schema with exactly two stats sharing one id yields
exactly one duplicate-id error; it references the duplicated id and the
index position of the *second* offending stat only (index `1`), not
both positions.  (Stated, as everywhere a single error must be
isolated, for stats with no other validation errors: boolean stats with
non-empty default names and a well-formed config.) -/
theorem c5_duplicate_id_second_index (idv : Nat) (cfg : ConfigT) (n0 n1 : Loc)
    (hc : cfg.name.default ≠ "") (h0 : n0.default ≠ "") (h1 : n1.default ≠ "") :
    validateE
      { config := some cfg,
        stats := JArr.arr [{ id := idv, name := n0, body := StatBody.boolean },
                           { id := idv, name := n1, body := StatBody.boolean }],
        sections := JArr.arr [] } =
      Except.ok ["stats[1] id duplicado: " ++ toString idv] := by
  unfold validateE
  simp only [statsLoop, statErrsOne, sectionsLoop]
  simp [hc, h0, h1]
  rfl

/-- Substring occurrence check (used to state what an error message
references). -/
def containsSub (pat : List Char) : List Char → Bool
  | [] => pat.isEmpty
  | c :: rest => pat.isPrefixOf (c :: rest) || containsSub pat rest

/-- A well-formed config for the C5 schemas. -/
def c5Cfg : ConfigT :=
  { id := 1, name := { default := "Sys" }, description := { default := "" } }

/-- The schema of the claim's example: two stats sharing `id = 4`. -/
def c5Sys : RPGSystemJ :=
  { config := some c5Cfg,
    stats := JArr.arr [{ id := 4, name := { default := "A" }, body := StatBody.boolean },
                       { id := 4, name := { default := "B" }, body := StatBody.boolean }],
    sections := JArr.arr [] }

/-- C5 counterexample: on two stats sharing `id = 4`, `validate`
returns exactly one duplicate-id error, but that error mentions only
the index position of the second stat (`stats[1]`): the substring
`stats[0]` — indeed the character `0` at all — does not occur in it, so
it does not reference the index positions of both offending stats. -/
theorem c5_counterexample :
    validateE c5Sys = Except.ok ["stats[1] id duplicado: 4"] ∧
      containsSub "stats[1]".data "stats[1] id duplicado: 4".data = true ∧
      containsSub "stats[0]".data "stats[1] id duplicado: 4".data = false ∧
      containsSub "0".data "stats[1] id duplicado: 4".data = false := by
  refine ⟨rfl, by decide, by decide, by decide⟩

/-- Witness for C5 (amended). -/
theorem c5_witness :
    validateE
      { config := some c5Cfg,
        stats := JArr.arr [{ id := 7, name := { default := "A" }, body := StatBody.boolean },
                           { id := 7, name := { default := "B" }, body := StatBody.boolean }],
        sections := JArr.arr [] } =
      Except.ok ["stats[1] id duplicado: 7"] := by
  have h := c5_duplicate_id_second_index 7 c5Cfg
    { default := "A" } { default := "B" } (by decide) (by decide) (by decide)
  rw [show toString (7 : Nat) = "7" from rfl] at h
  exact h

/-! ### Claim C7: `findStatDependencies` is the first-occurrence
de-duplication of the raw `<stat:ID:value>` match list -/

theorem addAll_cons (acc : List Nat) (i : Nat) (l : List Nat) :
    addAll acc (i :: l) = addAll (if i ∈ acc then acc else acc ++ [i]) l := rfl

theorem depLoop_eq_addAll : ∀ (n : Nat) (cs : List Char), cs.length ≤ n →
    ∀ acc, depLoop acc cs = addAll acc (depScan cs) := by
  intro n
  induction n with
  | zero =>
    intro cs hlen acc
    have hnil : cs = [] := List.eq_nil_of_length_eq_zero (Nat.le_zero.mp hlen)
    subst hnil
    rw [depLoop, depScan]
    rfl
  | succ n ih =>
    intro cs hlen acc
    cases cs with
    | nil =>
      rw [depLoop, depScan]
      rfl
    | cons c cs =>
      by_cases hc : c = '<'
      · subst hc
        cases hp : parseSV cs with
        | some pr =>
          obtain ⟨ds, rest⟩ := pr
          rw [depLoop_token hp, depScan_token hp, addAll_cons]
          exact ih rest (le_trans (parseSV_length hp) (Nat.le_of_succ_le_succ hlen)) _
        | none =>
          rw [depLoop_fail hp, depScan_fail hp]
          exact ih cs (Nat.le_of_succ_le_succ hlen) acc
      · rw [depLoop_cons_ne hc, depScan_cons_ne hc]
        exact ih cs (Nat.le_of_succ_le_succ hlen) acc

theorem findStatDependencies_eq_addAll (f : String) :
    findStatDependencies f = addAll [] (depScan f.data) :=
  depLoop_eq_addAll f.data.length f.data (le_refl _) []

theorem nodup_addAll : ∀ (l acc : List Nat), acc.Nodup → (addAll acc l).Nodup := by
  intro l
  induction l with
  | nil => intro acc h; exact h
  | cons i l ih =>
    intro acc h
    rw [addAll_cons]
    by_cases hi : i ∈ acc
    · rw [if_pos hi]
      exact ih acc h
    · rw [if_neg hi]
      apply ih
      rw [List.nodup_append]
      refine ⟨h, List.nodup_singleton i, ?_⟩
      intro a ha hai
      rw [List.mem_singleton] at hai
      subst hai
      exact hi ha

theorem pairwise_addAll (l : List Nat) :
    (addAll [] l).Pairwise (fun a b => l.indexOf a < l.indexOf b) := by
  induction l using List.reverseRecOn with
  | nil => exact List.Pairwise.nil
  | append_singleton l x ih =>
    have haddall : addAll [] (l ++ [x]) =
        if x ∈ addAll [] l then addAll [] l else addAll [] l ++ [x] := by
      unfold addAll
      rw [List.foldl_append]
      rfl
    have hmem : ∀ y : Nat, y ∈ addAll [] l ↔ y ∈ l := by
      intro y
      rw [mem_addAll]
      simp
    have htrans : (addAll [] l).Pairwise
        (fun a b => (l ++ [x]).indexOf a < (l ++ [x]).indexOf b) := by
      refine List.Pairwise.imp_of_mem ?_ ih
      intro a b ha hb hab
      rw [List.indexOf_append_of_mem ((hmem a).mp ha),
        List.indexOf_append_of_mem ((hmem b).mp hb)]
      exact hab
    rw [haddall]
    by_cases hx : x ∈ addAll [] l
    · rw [if_pos hx]
      exact htrans
    · rw [if_neg hx]
      rw [List.pairwise_append]
      refine ⟨htrans, List.pairwise_singleton _ _, ?_⟩
      intro a ha b hb
      rw [List.mem_singleton] at hb
      rw [hb]
      have hal : a ∈ l := (hmem a).mp ha
      have hxl : x ∉ l := fun hmem' => hx ((hmem x).mpr hmem')
      rw [List.indexOf_append_of_mem hal, List.indexOf_append_of_not_mem hxl]
      calc l.indexOf a < l.length := List.indexOf_lt_length.mpr hal
        _ ≤ l.length + List.indexOf x [x] := Nat.le_add_right _ _

theorem addAll_indexOf_lt_iff (l : List Nat) (a b : Nat)
    (ha : a ∈ addAll [] l) (hb : b ∈ addAll [] l) :
    (addAll [] l).indexOf a < (addAll [] l).indexOf b ↔ l.indexOf a < l.indexOf b := by
  have hp := (List.pairwise_iff_getElem).mp (pairwise_addAll l)
  have hia : (addAll [] l).indexOf a < (addAll [] l).length :=
    List.indexOf_lt_length.mpr ha
  have hib : (addAll [] l).indexOf b < (addAll [] l).length :=
    List.indexOf_lt_length.mpr hb
  constructor
  · intro hlt
    have := hp _ _ hia hib hlt
    rwa [List.getElem_indexOf, List.getElem_indexOf] at this
  · intro hlt
    rcases Nat.lt_trichotomy ((addAll [] l).indexOf a) ((addAll [] l).indexOf b)
      with h | h | h
    · exact h
    · exfalso
      have hab : a = b := (List.indexOf_inj ha hb).mp h
      subst hab
      exact Nat.lt_irrefl _ hlt
    · exfalso
      have := hp _ _ hib hia h
      rw [List.getElem_indexOf, List.getElem_indexOf] at this
      omega

/-! Failure of the `<stat:ID:value>` regex on the other token kinds -/

theorem dropPre_value_name (x : List Char) :
    dropPre ":value>".data (":name>".data ++ x) = none := rfl

theorem parseSV_fail_statName (ds post : List Char) (hdig : ∀ c ∈ ds, Char.isDigit c) :
    parseSV ("stat:".data ++ (ds ++ (":name>".data ++ post))) = none := by
  have htw := takeWhile_digits_append ':' ("name>".data ++ post) hdig (by decide)
  have hsh : (":name>".data ++ post) = ':' :: ("name>".data ++ post) := rfl
  unfold parseSV
  rw [dropPre_self_append]
  simp only [hsh] at htw ⊢
  rw [htw.1, htw.2]
  by_cases hne : ds.isEmpty
  · rw [hne]
    rfl
  · rw [Bool.not_eq_true] at hne
    rw [hne]
    simp only [Bool.false_eq_true, if_false]
    have hba : (':' :: ("name>".data ++ post)) = ":name>".data ++ post := rfl
    rw [hba, dropPre_value_name]

theorem parseSV_fail_statEmoji (ds post : List Char) (hdig : ∀ c ∈ ds, Char.isDigit c) :
    parseSV ("stat:".data ++ (ds ++ (":emoji>".data ++ post))) = none := by
  have htw := takeWhile_digits_append ':' ("emoji>".data ++ post) hdig (by decide)
  have hsh : (":emoji>".data ++ post) = ':' :: ("emoji>".data ++ post) := rfl
  unfold parseSV
  rw [dropPre_self_append]
  simp only [hsh] at htw ⊢
  rw [htw.1, htw.2]
  by_cases hne : ds.isEmpty
  · rw [hne]
    rfl
  · rw [Bool.not_eq_true] at hne
    rw [hne]
    simp only [Bool.false_eq_true, if_false]
    have hba : (':' :: ("emoji>".data ++ post)) = ":emoji>".data ++ post := rfl
    rw [hba, dropPre_value_emoji]

theorem parseSV_fail_section (x : List Char) :
    parseSV ("section:".data ++ x) = none := rfl

theorem parseSV_fail_math (x : List Char) :
    parseSV ("math:".data ++ x) = none := rfl

theorem parseSV_fail_dice (x : List Char) :
    parseSV ("dice:".data ++ x) = none := rfl

/-- A `<` that does not start a `<stat:ID:value>` match is skipped, and
the failed token's own characters (none of them `<`) are scanned
through without effect. -/
theorem depScan_skip_failed_token (pre tail post : List Char)
    (hpre : ∀ c ∈ pre, ¬ c = '<') (htail : ∀ c ∈ tail, ¬ c = '<')
    (hfail : parseSV (tail ++ post) = none) :
    depScan (pre ++ '<' :: (tail ++ post)) = depScan post := by
  rw [depScan_noLt _ hpre, depScan_fail hfail, depScan_noLt _ htail]

theorem digit_not_lt {c : Char} (h : Char.isDigit c = true) : ¬ c = '<' := by
  intro heq
  subst heq
  exact absurd h (by decide)

/-- C7: `findStatDependencies` returns the stat ids of the
`<stat:ID:value>` tokens of the formula with each id at most once
(`Nodup`), containing exactly the ids of the raw match list
(`depScan`), in first-occurrence order; tokens of the other kinds and
properties — `stat:name`, `stat:emoji`, `section:*`, `math`, `dice` —
contribute nothing to the raw match list. -/
theorem c7_findStatDependencies_spec (f : String) :
    (findStatDependencies f).Nodup ∧
    (∀ i, i ∈ findStatDependencies f ↔ i ∈ depScan f.data) ∧
    (∀ a b, a ∈ findStatDependencies f → b ∈ findStatDependencies f →
      ((findStatDependencies f).indexOf a < (findStatDependencies f).indexOf b ↔
        (depScan f.data).indexOf a < (depScan f.data).indexOf b)) ∧
    (∀ pre post ds, (∀ c ∈ pre, ¬ c = '<') → (∀ c ∈ ds, Char.isDigit c) →
      depScan (pre ++ '<' :: ("stat:".data ++ (ds ++ (":name>".data ++ post)))) =
        depScan post ∧
      depScan (pre ++ '<' :: ("stat:".data ++ (ds ++ (":emoji>".data ++ post)))) =
        depScan post) ∧
    (∀ pre post mid, (∀ c ∈ pre, ¬ c = '<') → (∀ c ∈ mid, ¬ c = '<') →
      depScan (pre ++ '<' :: ("section:".data ++ (mid ++ post))) = depScan post ∧
      depScan (pre ++ '<' :: ("math:".data ++ (mid ++ post))) = depScan post ∧
      depScan (pre ++ '<' :: ("dice:".data ++ (mid ++ post))) = depScan post) := by
  rw [findStatDependencies_eq_addAll]
  refine ⟨nodup_addAll _ [] List.Pairwise.nil, ?_, ?_, ?_, ?_⟩
  · intro i
    rw [mem_addAll]
    simp
  · intro a b ha hb
    exact addAll_indexOf_lt_iff (depScan f.data) a b ha hb
  · intro pre post ds hpre hdig
    have htail : ∀ c ∈ "stat:".data ++ (ds ++ ":name>".data), ¬ c = '<' := by
      intro c hc
      rcases List.mem_append.mp hc with h | h
      · exact (show ∀ c, c ∈ "stat:".data → ¬ c = '<' by decide) c h
      · rcases List.mem_append.mp h with h | h
        · exact digit_not_lt (hdig c h)
        · exact (show ∀ c, c ∈ ":name>".data → ¬ c = '<' by decide) c h
    have htail2 : ∀ c ∈ "stat:".data ++ (ds ++ ":emoji>".data), ¬ c = '<' := by
      intro c hc
      rcases List.mem_append.mp hc with h | h
      · exact (show ∀ c, c ∈ "stat:".data → ¬ c = '<' by decide) c h
      · rcases List.mem_append.mp h with h | h
        · exact digit_not_lt (hdig c h)
        · exact (show ∀ c, c ∈ ":emoji>".data → ¬ c = '<' by decide) c h
    constructor
    · have hassoc : "stat:".data ++ (ds ++ (":name>".data ++ post)) =
          ("stat:".data ++ (ds ++ ":name>".data)) ++ post := by
        simp [List.append_assoc]
      rw [hassoc]
      exact depScan_skip_failed_token pre _ post hpre htail
        (by rw [← hassoc]; exact parseSV_fail_statName ds post hdig)
    · have hassoc : "stat:".data ++ (ds ++ (":emoji>".data ++ post)) =
          ("stat:".data ++ (ds ++ ":emoji>".data)) ++ post := by
        simp [List.append_assoc]
      rw [hassoc]
      exact depScan_skip_failed_token pre _ post hpre htail2
        (by rw [← hassoc]; exact parseSV_fail_statEmoji ds post hdig)
  · intro pre post mid hpre hmid
    have hsec : ∀ c ∈ "section:".data ++ mid, ¬ c = '<' := by
      intro c hc
      rcases List.mem_append.mp hc with h | h
      · exact (show ∀ c, c ∈ "section:".data → ¬ c = '<' by decide) c h
      · exact hmid c h
    have hmath : ∀ c ∈ "math:".data ++ mid, ¬ c = '<' := by
      intro c hc
      rcases List.mem_append.mp hc with h | h
      · exact (show ∀ c, c ∈ "math:".data → ¬ c = '<' by decide) c h
      · exact hmid c h
    have hdice : ∀ c ∈ "dice:".data ++ mid, ¬ c = '<' := by
      intro c hc
      rcases List.mem_append.mp hc with h | h
      · exact (show ∀ c, c ∈ "dice:".data → ¬ c = '<' by decide) c h
      · exact hmid c h
    refine ⟨?_, ?_, ?_⟩
    · have hassoc : "section:".data ++ (mid ++ post) =
          ("section:".data ++ mid) ++ post := by
        simp [List.append_assoc]
      rw [hassoc]
      exact depScan_skip_failed_token pre _ post hpre hsec
        (by rw [← hassoc]; exact parseSV_fail_section (mid ++ post))
    · have hassoc : "math:".data ++ (mid ++ post) =
          ("math:".data ++ mid) ++ post := by
        simp [List.append_assoc]
      rw [hassoc]
      exact depScan_skip_failed_token pre _ post hpre hmath
        (by rw [← hassoc]; exact parseSV_fail_math (mid ++ post))
    · have hassoc : "dice:".data ++ (mid ++ post) =
          ("dice:".data ++ mid) ++ post := by
        simp [List.append_assoc]
      rw [hassoc]
      exact depScan_skip_failed_token pre _ post hpre hdice
        (by rw [← hassoc]; exact parseSV_fail_dice (mid ++ post))

/-- Witness for C7. -/
theorem c7_witness :
    (findStatDependencies "<stat:7:value> + <stat:7:value>").Nodup ∧
      depScan (("x = " : String).data ++ '<' ::
        ("math:".data ++ ("1+2>".data ++ "<stat:9:value>".data))) =
        depScan "<stat:9:value>".data := by
  constructor
  · exact (c7_findStatDependencies_spec "<stat:7:value> + <stat:7:value>").1
  · exact (((c7_findStatDependencies_spec "").2.2.2.2
      ("x = " : String).data "<stat:9:value>".data "1+2>".data
      (by decide) (by decide)).2.1)


end Sistemas
